import Mathlib

/-!
# NodeFlow v1.2 execution kernel — shallow embedding and verification

This file embeds the core of the NodeFlow v1.2 engine
(`nodeflow/node.py`, `nodeflow/loader.py`, `nodeflow/runner.py`,
`nodeflow/pipeline_node.py`, `nodeflow/loop_node.py`) as executable Lean
definitions and proves/refutes the frozen claims about it.

Conventions of the embedding:
* JSON-representable Python values are modelled by `Val` (numbers are
  integers; Python dicts are association lists in insertion order).
* Python exceptions are modelled by `PyErr`; a fallible operation returns
  `Except PyErr α`.  A mutating method that can raise returns
  `σ × Except PyErr α` so that mutations performed before the raise are
  kept, exactly as in Python.
* `time.monotonic()` is modelled by a caller-supplied `clock : Nat → Nat`
  read at an explicit tick counter; `uuid.uuid4()` by a caller-supplied
  `uuid : Nat → String`.
* Unbounded `while` loops (`PipelineNode.run`, `LoopNode.run`) take fuel
  and return `none` when the fuel is exhausted (the Python loop would
  still be running).
-/

namespace NodeFlow

/-- JSON-representable Python value (numbers restricted to integers).
`dict` keeps insertion order, as Python dicts do. -/
inductive Val where
  | null : Val
  | bool : Bool → Val
  | int : Int → Val
  | str : String → Val
  | arr : List Val → Val
  | dict : List (String × Val) → Val
  deriving Repr

mutual

/-- Decidable equality on `Val` (written by hand: `deriving DecidableEq` does
not support this nested inductive). -/
def Val.decEq : (a b : Val) → Decidable (a = b)
  | .null, .null => .isTrue rfl
  | .null, .bool _ => .isFalse (fun h => Val.noConfusion h)
  | .null, .int _ => .isFalse (fun h => Val.noConfusion h)
  | .null, .str _ => .isFalse (fun h => Val.noConfusion h)
  | .null, .arr _ => .isFalse (fun h => Val.noConfusion h)
  | .null, .dict _ => .isFalse (fun h => Val.noConfusion h)
  | .bool _, .null => .isFalse (fun h => Val.noConfusion h)
  | .bool a, .bool b =>
    if h : a = b then .isTrue (by rw [h])
    else .isFalse (fun hh => h (Val.bool.inj hh))
  | .bool _, .int _ => .isFalse (fun h => Val.noConfusion h)
  | .bool _, .str _ => .isFalse (fun h => Val.noConfusion h)
  | .bool _, .arr _ => .isFalse (fun h => Val.noConfusion h)
  | .bool _, .dict _ => .isFalse (fun h => Val.noConfusion h)
  | .int _, .null => .isFalse (fun h => Val.noConfusion h)
  | .int _, .bool _ => .isFalse (fun h => Val.noConfusion h)
  | .int a, .int b =>
    if h : a = b then .isTrue (by rw [h])
    else .isFalse (fun hh => h (Val.int.inj hh))
  | .int _, .str _ => .isFalse (fun h => Val.noConfusion h)
  | .int _, .arr _ => .isFalse (fun h => Val.noConfusion h)
  | .int _, .dict _ => .isFalse (fun h => Val.noConfusion h)
  | .str _, .null => .isFalse (fun h => Val.noConfusion h)
  | .str _, .bool _ => .isFalse (fun h => Val.noConfusion h)
  | .str _, .int _ => .isFalse (fun h => Val.noConfusion h)
  | .str a, .str b =>
    if h : a = b then .isTrue (by rw [h])
    else .isFalse (fun hh => h (Val.str.inj hh))
  | .str _, .arr _ => .isFalse (fun h => Val.noConfusion h)
  | .str _, .dict _ => .isFalse (fun h => Val.noConfusion h)
  | .arr _, .null => .isFalse (fun h => Val.noConfusion h)
  | .arr _, .bool _ => .isFalse (fun h => Val.noConfusion h)
  | .arr _, .int _ => .isFalse (fun h => Val.noConfusion h)
  | .arr _, .str _ => .isFalse (fun h => Val.noConfusion h)
  | .arr a, .arr b =>
    match Val.decEqList a b with
    | .isTrue h => .isTrue (by rw [h])
    | .isFalse h => .isFalse (fun hh => h (Val.arr.inj hh))
  | .arr _, .dict _ => .isFalse (fun h => Val.noConfusion h)
  | .dict _, .null => .isFalse (fun h => Val.noConfusion h)
  | .dict _, .bool _ => .isFalse (fun h => Val.noConfusion h)
  | .dict _, .int _ => .isFalse (fun h => Val.noConfusion h)
  | .dict _, .str _ => .isFalse (fun h => Val.noConfusion h)
  | .dict _, .arr _ => .isFalse (fun h => Val.noConfusion h)
  | .dict a, .dict b =>
    match Val.decEqFields a b with
    | .isTrue h => .isTrue (by rw [h])
    | .isFalse h => .isFalse (fun hh => h (Val.dict.inj hh))

/-- Decidable equality on lists of `Val`. -/
def Val.decEqList : (a b : List Val) → Decidable (a = b)
  | [], [] => .isTrue rfl
  | [], _ :: _ => .isFalse (fun h => List.noConfusion h)
  | _ :: _, [] => .isFalse (fun h => List.noConfusion h)
  | a :: as, b :: bs =>
    match Val.decEq a b, Val.decEqList as bs with
    | .isTrue h1, .isTrue h2 => .isTrue (by rw [h1, h2])
    | .isFalse h1, _ => .isFalse (fun h => by injection h with hh _; exact h1 hh)
    | _, .isFalse h2 => .isFalse (fun h => by injection h with _ hh; exact h2 hh)

/-- Decidable equality on dict fields. -/
def Val.decEqFields : (a b : List (String × Val)) → Decidable (a = b)
  | [], [] => .isTrue rfl
  | [], _ :: _ => .isFalse (fun h => List.noConfusion h)
  | _ :: _, [] => .isFalse (fun h => List.noConfusion h)
  | (k, v) :: as, (k', v') :: bs =>
    if hk : k = k' then
      match Val.decEq v v', Val.decEqFields as bs with
      | .isTrue hv, .isTrue hs => .isTrue (by rw [hk, hv, hs])
      | .isFalse hv, _ =>
        .isFalse (fun h => by injection h with h1 _; injection h1 with _ hh; exact hv hh)
      | _, .isFalse hs => .isFalse (fun h => by injection h with _ hh; exact hs hh)
    else .isFalse (fun h => by injection h with h1 _; injection h1 with hh _; exact hk hh)

end

instance : DecidableEq Val := Val.decEq

/-- Python truthiness on `Val`: `None`, `False`, `0`, `""`, `[]`, `{}` are
falsy, everything else truthy. -/
def pyTruthy : Val → Bool
  | .null => false
  | .bool b => b
  | .int n => n != 0
  | .str s => !(s == "")
  | .arr xs => !xs.isEmpty
  | .dict fs => !fs.isEmpty

/-- `d.get(k)` on an association list: first entry with the given key. -/
def alookup (fs : List (String × Val)) (k : String) : Option Val :=
  match fs with
  | [] => none
  | (k', v) :: rest => if k' = k then some v else alookup rest k

/-- `k in d` for an association-list dict. -/
def hasKey (fs : List (String × Val)) (k : String) : Bool :=
  (alookup fs k).isSome

/-- `d[k] = v` on an association list: overwrite the first entry with key
`k`, or append a new entry at the end (Python dict insertion order). -/
def aset (fs : List (String × Val)) (k : String) (v : Val) : List (String × Val) :=
  match fs with
  | [] => [(k, v)]
  | (k', v') :: rest => if k' = k then (k, v) :: rest else (k', v') :: aset rest k v

/-- `sub in s` for strings (Python substring test). -/
def strContains (s sub : String) : Bool :=
  go s.toList sub.toList
where
  go : List Char → List Char → Bool
    | _, [] => true
    | [], _ :: _ => false
    | c :: cs, pat => List.isPrefixOf pat (c :: cs) || go cs pat

/-! ## `_strip_meta` (node.py): recursively remove `_meta` keys -/

mutual

/-- `_strip_meta` from `node.py`: recursively remove `_meta` from all levels. -/
def stripMeta : Val → Val
  | .dict fs => .dict (stripMetaFields fs)
  | .arr xs => .arr (stripMetaList xs)
  | v => v

def stripMetaFields : List (String × Val) → List (String × Val)
  | [] => []
  | (k, v) :: rest =>
    if k = "_meta" then stripMetaFields rest
    else (k, stripMeta v) :: stripMetaFields rest

def stripMetaList : List Val → List Val
  | [] => []
  | v :: rest => stripMeta v :: stripMetaList rest

end

/-! ## Canonical JSON serialization (`_canonical_bytes` fallback branch of
`node.py`: `json.dumps(obj, sort_keys=True, separators=(",", ":"),
ensure_ascii=False)` followed by UTF-8 encoding) -/

/-- Stable insertion of a field in front of the first strictly greater key
(Python `sorted` is stable, ascending by code-point string order). -/
def insertField (p : String × Val) (l : List (String × Val)) : List (String × Val) :=
  match l with
  | [] => [p]
  | q :: rest => if q.1 < p.1 then q :: insertField p rest else p :: q :: rest

/-- Sort dict fields by key, as `json.dumps(sort_keys=True)` does. -/
def sortFields : List (String × Val) → List (String × Val)
  | [] => []
  | p :: rest => insertField p (sortFields rest)

theorem sizeOf_insertField (p : String × Val) (l : List (String × Val)) :
    sizeOf (insertField p l) = 1 + sizeOf p + sizeOf l := by
  induction l with
  | nil => simp [insertField]
  | cons q rest ih =>
    simp only [insertField]
    split
    · simp only [List.cons.sizeOf_spec, ih]; try omega
    · simp only [List.cons.sizeOf_spec]; try omega

theorem sizeOf_sortFields (l : List (String × Val)) :
    sizeOf (sortFields l) = sizeOf l := by
  induction l with
  | nil => rfl
  | cons p rest ih =>
    simp only [sortFields, sizeOf_insertField, ih, List.cons.sizeOf_spec]

/-- Lowercase hex digit. -/
def hexDigit (n : Nat) : Char :=
  "0123456789abcdef".toList.getD n '0'

/-- Fixed-width lowercase hex of a natural number. -/
def hexFixed (width n : Nat) : String :=
  match width with
  | 0 => ""
  | w + 1 => hexFixed w (n / 16) ++ String.singleton (hexDigit (n % 16))

/-- JSON string-character escaping as CPython's `json.dumps` with
`ensure_ascii=False`: short escapes for `\` `"` and common control
characters, `\uXXXX` for the remaining control characters, everything
else verbatim. -/
def escapeJsonChar (c : Char) : String :=
  if c = '\\' then "\\\\"
  else if c = '"' then "\\\""
  else if c = '\n' then "\\n"
  else if c = '\r' then "\\r"
  else if c = '\t' then "\\t"
  else if c.toNat = 8 then "\\b"
  else if c.toNat = 12 then "\\f"
  else if c.toNat < 32 then "\\u" ++ hexFixed 4 c.toNat
  else String.singleton c

/-- A JSON string literal: quotes around the escaped characters. -/
def quoteJson (s : String) : String :=
  "\"" ++ String.join (s.toList.map escapeJsonChar) ++ "\""

mutual

/-- The canonical serialization used by the revision stamper:
`json.dumps(obj, sort_keys=True, separators=(",", ":"), ensure_ascii=False)`. -/
def canonicalVal : Val → String
  | .null => "null"
  | .bool b => if b then "true" else "false"
  | .int n => toString n
  | .str s => quoteJson s
  | .arr xs => "[" ++ canonicalList xs ++ "]"
  | .dict fs => "\x7b" ++ canonicalFields (sortFields fs) ++ "\x7d"
termination_by v => sizeOf v
decreasing_by
  · simp only [Val.arr.sizeOf_spec]; omega
  · simp only [Val.dict.sizeOf_spec, sizeOf_sortFields]; omega

def canonicalList : List Val → String
  | [] => ""
  | [v] => canonicalVal v
  | v :: v' :: rest => canonicalVal v ++ "," ++ canonicalList (v' :: rest)
termination_by l => sizeOf l
decreasing_by
  all_goals simp only [List.cons.sizeOf_spec]
  all_goals omega

def canonicalFields : List (String × Val) → String
  | [] => ""
  | [(k, v)] => quoteJson k ++ ":" ++ canonicalVal v
  | (k, v) :: p :: rest =>
    quoteJson k ++ ":" ++ canonicalVal v ++ "," ++ canonicalFields (p :: rest)
termination_by l => sizeOf l
decreasing_by
  all_goals simp only [List.cons.sizeOf_spec, Prod.mk.sizeOf_spec]
  all_goals omega

end

/-! ## SHA-256 (`hashlib.sha256(...).hexdigest()`), over UTF-8 bytes -/

/-- Truncate to a 32-bit word. -/
def w32 (x : Nat) : Nat := x % 4294967296

/-- 32-bit right rotation. -/
def rotr (n x : Nat) : Nat := w32 ((x >>> n) ||| (x <<< (32 - n)))

def bsig0 (x : Nat) : Nat := rotr 2 x ^^^ rotr 13 x ^^^ rotr 22 x
def bsig1 (x : Nat) : Nat := rotr 6 x ^^^ rotr 11 x ^^^ rotr 25 x
def ssig0 (x : Nat) : Nat := rotr 7 x ^^^ rotr 18 x ^^^ (x >>> 3)
def ssig1 (x : Nat) : Nat := rotr 17 x ^^^ rotr 19 x ^^^ (x >>> 10)
def chF (x y z : Nat) : Nat := (x &&& y) ^^^ ((x ^^^ 4294967295) &&& z)
def majF (x y z : Nat) : Nat := (x &&& y) ^^^ (x &&& z) ^^^ (y &&& z)

/-- The SHA-256 round constants. -/
def sha256K : List Nat :=
  [1116352408, 1899447441, 3049323471, 3921009573, 961987163,
   1508970993, 2453635748, 2870763221, 3624381080, 310598401,
   607225278, 1426881987, 1925078388, 2162078206, 2614888103,
   3248222580, 3835390401, 4022224774, 264347078, 604807628,
   770255983, 1249150122, 1555081692, 1996064986, 2554220882,
   2821834349, 2952996808, 3210313671, 3336571891, 3584528711,
   113926993, 338241895, 666307205, 773529912, 1294757372,
   1396182291, 1695183700, 1986661051, 2177026350, 2456956037,
   2730485921, 2820302411, 3259730800, 3345764771, 3516065817,
   3600352804, 4094571909, 275423344, 430227734, 506948616,
   659060556, 883997877, 958139571, 1322822218, 1537002063,
   1747873779, 1955562222, 2024104815, 2227730452, 2361852424,
   2428436474, 2756734187, 3204031479, 3329325298]

/-- The SHA-256 initial hash value. -/
def sha256H0 : List Nat :=
  [1779033703, 3144134277, 1013904242, 2773480762,
   1359893119, 2600822924, 528734635, 1541459225]

/-- Big-endian byte decomposition of fixed width. -/
def beBytes (width n : Nat) : List Nat :=
  match width with
  | 0 => []
  | w + 1 => beBytes w (n / 256) ++ [n % 256]

/-- SHA-256 message padding. -/
def sha256Pad (msg : List Nat) : List Nat :=
  let L := msg.length
  let k := (120 - (L + 1) % 64) % 64
  msg ++ [0x80] ++ List.replicate k 0 ++ beBytes 8 (8 * L)

/-- Split into 64-byte blocks (assumes the length is a multiple of 64). -/
def toBlocks : List Nat → List (List Nat)
  | [] => []
  | b :: rest => (b :: rest).take 64 :: toBlocks ((b :: rest).drop 64)
termination_by l => l.length
decreasing_by
  simp only [List.length_drop, List.length_cons]
  omega

/-- Big-endian 32-bit words from bytes. -/
def toWords : List Nat → List Nat
  | b0 :: b1 :: b2 :: b3 :: rest =>
    (((b0 * 256 + b1) * 256 + b2) * 256 + b3) :: toWords rest
  | _ => []

/-- Extend 16 message-schedule words to 64. -/
def extendW : Nat → List Nat → List Nat
  | 0, w => w
  | n + 1, w =>
    let i := w.length
    let nw := w32 (ssig1 (w.getD (i - 2) 0) + w.getD (i - 7) 0 +
      ssig0 (w.getD (i - 15) 0) + w.getD (i - 16) 0)
    extendW n (w ++ [nw])

/-- The 64 compression rounds, consuming round constants and schedule words. -/
def sha256Rounds :
    List Nat → List Nat → (Nat × Nat × Nat × Nat × Nat × Nat × Nat × Nat) →
    Nat × Nat × Nat × Nat × Nat × Nat × Nat × Nat
  | k :: ks, w :: ws, (a, b, c, d, e, f, g, h) =>
    let t1 := w32 (h + bsig1 e + chF e f g + k + w)
    let t2 := w32 (bsig0 a + majF a b c)
    sha256Rounds ks ws (w32 (t1 + t2), a, b, c, w32 (d + t1), e, f, g)
  | _, _, st => st

/-- Process one 64-byte block. -/
def sha256Block (hs : List Nat) (block : List Nat) : List Nat :=
  let w := extendW 48 (toWords block)
  let st := (hs.getD 0 0, hs.getD 1 0, hs.getD 2 0, hs.getD 3 0,
             hs.getD 4 0, hs.getD 5 0, hs.getD 6 0, hs.getD 7 0)
  match sha256Rounds sha256K w st with
  | (a, b, c, d, e, f, g, h) =>
    [w32 (hs.getD 0 0 + a), w32 (hs.getD 1 0 + b), w32 (hs.getD 2 0 + c),
     w32 (hs.getD 3 0 + d), w32 (hs.getD 4 0 + e), w32 (hs.getD 5 0 + f),
     w32 (hs.getD 6 0 + g), w32 (hs.getD 7 0 + h)]

/-- SHA-256 digest (as eight 32-bit words) of a byte sequence. -/
def sha256Words (msg : List Nat) : List Nat :=
  (toBlocks (sha256Pad msg)).foldl sha256Block sha256H0

/-- SHA-256 lowercase hex digest of a byte sequence
(`hashlib.sha256(raw).hexdigest()`). -/
def sha256hex (msg : List Nat) : String :=
  String.join ((sha256Words msg).map (hexFixed 8))

/-- UTF-8 encoding of one character. -/
def utf8Char (c : Char) : List Nat :=
  let n := c.toNat
  if n < 128 then [n]
  else if n < 2048 then [192 ||| (n >>> 6), 128 ||| (n &&& 63)]
  else if n < 65536 then
    [224 ||| (n >>> 12), 128 ||| ((n >>> 6) &&& 63), 128 ||| (n &&& 63)]
  else
    [240 ||| (n >>> 18), 128 ||| ((n >>> 12) &&& 63),
     128 ||| ((n >>> 6) &&& 63), 128 ||| (n &&& 63)]

/-- UTF-8 encoding of a string (`s.encode("utf-8")`). -/
def utf8Bytes (s : String) : List Nat :=
  (s.toList.map utf8Char).flatten

/-- `hashlib.sha256(_canonical_bytes(x)).hexdigest()`: hex digest of the
canonical serialization of a value. -/
def sha256hexOfVal (v : Val) : String :=
  sha256hex (utf8Bytes (canonicalVal v))

/-! ## Node kernel (`node.py`): statuses, exceptions, `BaseNode.execute` -/

/-- Node status strings of §2.3. -/
inductive Status where
  | ready | executing | done | pause | limit | fatal
  deriving Repr, DecidableEq

/-- Python exceptions relevant to the engine.  `pauseSignal`/`limitSignal`
model `PauseSignal`/`LimitSignal`; `user` models any other exception
raised by user `run` code. -/
inductive PyErr where
  | typeErr (msg : String)
  | valueErr (msg : String)
  | attrErr (msg : String)
  | versionErr (msg : String)
  | invalidState (msg : String)
  | pauseSignal (reason : String)
  | limitSignal (reason : String)
  | user (code : Nat)
  deriving Repr, DecidableEq

/-- Port bindings / inputs / params / output dicts. -/
abbrev Bindings := List (String × Val)

/-- The mutable per-instance state of `BaseNode`. -/
structure BaseState where
  status : Status := .ready
  error : Option PyErr := none
  myNodeCalls : Nat := 0
  deriving Repr, DecidableEq

/-- `BaseNode.read_error` (§9.1): the cause only while status is fatal. -/
def readErrorBase (b : BaseState) : Option PyErr :=
  if b.status = .fatal then b.error else none

/-- What a `run()` implementation returned: a dict, or any non-dict value. -/
inductive RunVal where
  | dict (o : Bindings)
  | nonDict
  deriving Repr, DecidableEq

/-- One port of `_apply_revision_to_output` (node.py lines 70–85).
`uuid`/`uctr` model the fresh `uuid.uuid4()` values consumed so far.
Returns `typeErr`/`valueErr` where Python raises those (caught by
`execute`), and `attrErr` where Python's `.get` on a non-dict `_meta`
raises `AttributeError` (NOT caught by `execute`). -/
def stampPort (uuid : Nat → String) (uctr : Nat) (portName : String) (v : Val) :
    Except PyErr (Val × Nat) :=
  match v with
  | .dict fs0 =>
    -- if "_meta" not in port_value: port_value["_meta"] = {}
    let fs := if hasKey fs0 "_meta" then fs0 else aset fs0 "_meta" (.dict [])
    match alookup fs "_meta" with
    | some (.dict mfs) =>
      if hasKey mfs "revision" then .ok (.dict fs, uctr)
      else if alookup mfs "hash_skip" = some (.bool true) then
        .ok (.dict (aset fs "_meta" (.dict (aset mfs "revision" (.str (uuid uctr))))),
          uctr + 1)
      else
        let digest := sha256hexOfVal (stripMeta (.dict fs))
        .ok (.dict (aset fs "_meta" (.dict (aset mfs "revision" (.str digest)))), uctr)
    | some (.str s) =>
      -- `"revision" in s` is a substring test; `s.get` then raises AttributeError
      if strContains s "revision" then .ok (.dict fs, uctr)
      else .error (.attrErr "str object has no attribute get")
    | some (.arr xs) =>
      if xs.contains (.str "revision") then .ok (.dict fs, uctr)
      else .error (.attrErr "list object has no attribute get")
    | some _ =>
      -- `"revision" in <non-iterable>` raises TypeError
      .error (.typeErr "argument is not iterable")
    | none =>
      -- unreachable: `_meta` was ensured present just above
      .error (.typeErr "unreachable")
  | _ =>
    .error (.typeErr ("Output port '" ++ portName ++ "' must be a dict"))

/-- `_apply_revision_to_output` (node.py lines 65–85) over all ports. -/
def applyRevisionToOutput (uuid : Nat → String) :
    Nat → Bindings → Except PyErr Bindings
  | _, [] => .ok []
  | uctr, (k, v) :: rest => do
    let (v', uctr') ← stampPort uuid uctr k v
    let rest' ← applyRevisionToOutput uuid uctr' rest
    .ok ((k, v') :: rest')

/-- The state change `self._status = "fatal"; self._error = e`. -/
def fatalState (b : BaseState) (e : PyErr) : BaseState :=
  { b with status := .fatal, error := some e }

/-- `BaseNode.execute` (node.py lines 127–172), generic over the concrete
node class: `getB`/`setB` access the `BaseNode` fields inside the node
state `σ`, `checkPre`/`checkPost` are `_check_limit_pre`/`_check_limit_post`
(`False` in `BaseNode` and in every class of this repository), and `run`
is the subclass `run` (returning its possibly-mutated state and its
outcome).  The monad `m` is `Id` for leaf nodes and `Option` for
structural nodes whose `run` loop takes fuel.
Order: node_calls += 1 → freeze → executing → limit pre → run →
revision complement → limit post → done → return.
Steps 5–9 of the order — signal translation, dict check, revision
complement, post-limit hook, `executing → done` — are factored into the
continuation `execKernelHandle` below; `execKernel` is the wrapper. -/
def execKernelHandle {σ : Type}
    (getB : σ → BaseState) (setB : σ → BaseState → σ)
    (checkPost : σ → Bindings → Bool) (uuid : Nat → String)
    (s3 : σ) (r : Except PyErr RunVal) (params : Bindings) :
    σ × Except PyErr Bindings :=
  match r with
  | .error (.pauseSignal _) =>
    (setB s3 { getB s3 with status := .pause }, .ok [])
  | .error (.limitSignal _) =>
    (setB s3 { getB s3 with status := .limit }, .ok [])
  | .error e =>
    (setB s3 (fatalState (getB s3) e), .ok [])
  | .ok .nonDict =>
    (setB s3 (fatalState (getB s3) (.typeErr "run() must return a dict")), .ok [])
  | .ok (.dict result) =>
    match applyRevisionToOutput uuid 0 result with
    | .error (.typeErr msg) =>
      (setB s3 (fatalState (getB s3) (.typeErr msg)), .ok [])
    | .error (.valueErr msg) =>
      (setB s3 (fatalState (getB s3) (.valueErr msg)), .ok [])
    | .error e =>
      -- only `TypeError`/`ValueError` are caught: anything else escapes
      (s3, .error e)
    | .ok stamped =>
      if checkPost s3 params then
        (setB s3 { getB s3 with status := .limit }, .ok stamped)
      else if (getB s3).status = .executing then
        (setB s3 { getB s3 with status := .done }, .ok stamped)
      else
        (s3, .ok stamped)

def execKernel {m : Type → Type} [Monad m] {σ : Type}
    (getB : σ → BaseState) (setB : σ → BaseState → σ)
    (checkPre : σ → Bindings → Bool) (checkPost : σ → Bindings → Bool)
    (run : σ → Bindings → Bindings → m (σ × Except PyErr RunVal))
    (uuid : Nat → String)
    (s : σ) (inputs params : Bindings) : m (σ × Except PyErr Bindings) :=
  let s1 := setB s { getB s with myNodeCalls := (getB s).myNodeCalls + 1 }
  let s2 := setB s1 { getB s1 with status := .executing }
  if checkPre s2 params then
    pure (setB s2 { getB s2 with status := .limit }, .ok [])
  else do
    let (s3, r) ← run s2 inputs params
    pure (execKernelHandle getB setB checkPost uuid s3 r params)

/-- The behavior of a user-implemented leaf node: its `run`, as a function
of the number of previous `execute` calls on the instance (the only
inter-call state a `BaseNode` subclass carries) and the current
inputs/params. -/
structure LeafBehavior where
  run : Nat → Bindings → Bindings → Except PyErr RunVal

/-- A leaf node instance: its class behavior plus its `BaseNode` state. -/
structure LeafNode where
  behavior : LeafBehavior
  state : BaseState

/-- `BaseNode.execute` for a leaf node. -/
def leafExecute (uuid : Nat → String) (ln : LeafNode) (inputs params : Bindings) :
    LeafNode × Except PyErr Bindings :=
  Id.run <| execKernel (fun n => n.state) (fun n b => { n with state := b })
    (fun _ _ => false) (fun _ _ => false)
    (fun n i p => pure (n, n.behavior.run (n.state.myNodeCalls - 1) i p))
    uuid ln inputs params

/-! ## Loader (`loader.py`): reference resolution and node.yaml schemas -/

/-- Generic association-list lookup (first entry wins). -/
def slookup {β : Type} (l : List (String × β)) (k : String) : Option β :=
  match l with
  | [] => none
  | (k', v) :: rest => if k' = k then some v else slookup rest k

/-- Generic association-list store: overwrite the first entry with the key,
else append (Python dict assignment). -/
def sset {β : Type} (l : List (String × β)) (k : String) (v : β) :
    List (String × β) :=
  match l with
  | [] => [(k, v)]
  | (k', v') :: rest => if k' = k then (k, v) :: rest else (k', v') :: sset rest k v

/-- Python `str.strip()` (restricted to ASCII whitespace), implemented on
the character list. -/
def pyStrip (s : String) : String :=
  String.mk (((s.toList.dropWhile Char.isWhitespace).reverse.dropWhile
    Char.isWhitespace).reverse)

/-- `s.startswith(p)`. -/
def strStartsWith (s p : String) : Bool := List.isPrefixOf p.toList s.toList

/-- `s.endswith(p)`. -/
def strEndsWith (s p : String) : Bool := List.isSuffixOf p.toList s.toList

/-- `s.split(".")`. -/
def splitOnDot (s : String) : List String :=
  go s.toList []
where
  go : List Char → List Char → List String
    | [], acc => [String.mk acc.reverse]
    | c :: cs, acc =>
      if c = '.' then String.mk acc.reverse :: go cs []
      else go cs (c :: acc)

/-- `_REF_PATTERN.fullmatch(s)` for `_REF_PATTERN = \$\{([^}.]+)\.([^}]+)\}`:
the whole string is `${src.key}` where `src` is a nonempty run of
characters other than `.` and `}` (so `src` stops at the first `.`), and
`key` is a nonempty run of characters other than `}` — `key` MAY contain
further dots.  Returns the two capture groups. -/
def refFullmatch (s : String) : Option (String × String) :=
  match s.toList with
  | '$' :: '\x7b' :: rest => matchSrc rest []
  | _ => none
where
  /-- Scan group 1 (`[^}.]+`) up to the mandatory `.`. -/
  matchSrc : List Char → List Char → Option (String × String)
    | [], _ => none
    | c :: cs, acc =>
      if c = '.' then
        if acc.isEmpty then none else matchKey cs acc []
      else if c = '\x7d' then none
      else matchSrc cs (acc ++ [c])
  /-- Scan group 2 (`[^}]+`) up to the closing `}`, which must end the string. -/
  matchKey : List Char → List Char → List Char → Option (String × String)
    | [], _, _ => none
    | c :: cs, src, acc =>
      if c = '\x7d' then
        if acc.isEmpty || !cs.isEmpty then none
        else some (String.mk src, String.mk acc)
      else matchKey cs src (acc ++ [c])

/-- The `UNRESOLVED` sentinel: a resolved binding is either a value or the
sentinel. -/
inductive Resolved where
  | val (v : Val)
  | unresolved
  deriving Repr, DecidableEq

/-- `resolve_inputs` (loader.py lines 93–133).  `latestOutputs` maps node id
to its latest output dict (the store only ever holds dicts, so the
`isinstance(out, dict)` test is represented by the type). -/
def resolveInputsImpl (bindings : Bindings)
    (latestOutputs : List (String × Bindings))
    (pipelineInputs pipelineParams : Bindings) : List (String × Resolved) :=
  bindings.map fun (port, ref) =>
    match ref with
    | .str s =>
      match refFullmatch (pyStrip s) with
      | none => (port, .val ref)
      | some (src, key) =>
        if src = "inputs" then
          match alookup pipelineInputs key with
          | some v => (port, .val v)
          | none => (port, .unresolved)
        else if src = "params" then
          match alookup pipelineParams key with
          | some v => (port, .val v)
          | none => (port, .unresolved)
        else
          match slookup latestOutputs src with
          | some out =>
            match alookup out key with
            | some v => (port, .val v)
            | none => (port, .unresolved)
          | none => (port, .unresolved)
    | _ => (port, .val ref)

/-- A workspace, as the node-yaml loader sees it: the parsed
`nodes/<type>/node.yaml` per node type, or `none` when the file is
missing. -/
abbrev Workspace := String → Option Val

/-- `load_node_yaml` (loader.py lines 50–67): missing file or falsy data
gives `{}`; otherwise the `version` entry must be exactly `"1.2"`
(`data.get("version")` is `None` both for a missing key and a null
value).  A truthy non-dict YAML root would make `.get` raise
`AttributeError`. -/
def loadNodeYaml (ws : Workspace) (ty : String) : Except PyErr Bindings :=
  match ws ty with
  | none => .ok []
  | some data =>
    if pyTruthy data = false then .ok []
    else match data with
      | .dict d =>
        match alookup d "version" with
        | none => .error (.versionErr "Unsupported version: missing")
        | some .null => .error (.versionErr "Unsupported version: missing")
        | some v =>
          if v = .str "1.2" then .ok d
          else .error (.versionErr "Unsupported version")
      | _ => .error (.attrErr "object has no attribute get")

/-- `get_required_input_ports` (loader.py lines 168–179): the declared input
ports whose schema entry is a non-dict, or a dict whose `required`
(default `True`) is truthy. -/
def getRequiredInputPorts (ws : Workspace) (ty : String) :
    Except PyErr (List String) := do
  let schema ← loadNodeYaml ws ty
  let inputsVal := match alookup schema "inputs" with
    | some v => if pyTruthy v then v else .dict []
    | none => .dict []
  match inputsVal with
  | .dict inputs =>
    .ok (inputs.filterMap fun (port, pschema) =>
      match pschema with
      | .dict pd =>
        if pyTruthy ((alookup pd "required").getD (.bool true)) then some port
        else none
      | _ => some port)
  | _ => .error (.attrErr "object has no attribute items")

/-- `resolve_params` (loader.py lines 136–165): strings of the shape
`${...}` are resolved from pipeline params, then pipeline inputs, else
kept as the literal refstring; nested dicts are resolved recursively;
everything else passes through. -/
def resolveParams : Bindings → Bindings → List (String × Bindings) → Bindings → Bindings
  | [], _, _, _ => []
  | (k, .dict d) :: rest, pparams, louts, pinputs =>
    (k, .dict (resolveParams d pparams louts pinputs)) ::
      resolveParams rest pparams louts pinputs
  | (k, .str s) :: rest, pparams, louts, pinputs =>
    let v' : Val :=
      if strStartsWith s "$\x7b" && strEndsWith s "\x7d" then
        match refFullmatch (pyStrip s) with
        | some (src, key) =>
          if src = "params" && hasKey pparams key then
            (alookup pparams key).getD .null
          else if src = "inputs" && hasKey pinputs key then
            (alookup pinputs key).getD .null
          else .str s
        | none => .str s
      else .str s
    (k, v') :: resolveParams rest pparams louts pinputs
  | (k, v) :: rest, pparams, louts, pinputs =>
    (k, v) :: resolveParams rest pparams louts pinputs
termination_by l => sizeOf l
decreasing_by
  all_goals simp only [List.cons.sizeOf_spec, Prod.mk.sizeOf_spec, Val.dict.sizeOf_spec]
  all_goals omega

/-! ## Runner (`runner.py`) -/

/-- A node descriptor from `graph.nodes` (`""` models a missing/falsy
`id`/`type`). -/
structure NodeDesc where
  id : String := ""
  type : String := ""
  inputs : Bindings := []
  params : Bindings := []

/-- The state shared by a `Runner` and its owning `PipelineNode`: graph,
pipeline inputs/params, `latest_outputs` and `node_instances`. -/
structure RState where
  workspace : Workspace
  nodesList : List NodeDesc
  finalId : String
  pipelineInputs : Bindings
  pipelineParams : Bindings
  latestOutputs : List (String × Bindings)
  instances : List (String × LeafNode)

/-- `Runner._node_def`: first descriptor with the given id. -/
def nodeDefOf (st : RState) (nid : String) : Option NodeDesc :=
  st.nodesList.find? (fun n => n.id == nid)

/-- `Runner.resolve_inputs` (runner.py lines 44–55). -/
def runnerResolveInputs (st : RState) (nid : String) : List (String × Resolved) :=
  match nodeDefOf st nid with
  | none => []
  | some nd =>
    resolveInputsImpl nd.inputs st.latestOutputs st.pipelineInputs st.pipelineParams

/-- `Runner.is_executable` (runner.py lines 57–72): instance exists, status
is ready or done, and every required input port resolves to a
non-`UNRESOLVED` value. -/
def isExecutable (st : RState) (nid : String) : Except PyErr Bool :=
  match slookup st.instances nid with
  | none => .ok false
  | some ln =>
    if ln.state.status = .ready ∨ ln.state.status = .done then do
      let resolved := runnerResolveInputs st nid
      let ntype := match nodeDefOf st nid with
        | some nd => nd.type
        | none => ""
      let required ← getRequiredInputPorts st.workspace ntype
      .ok (required.all fun port =>
        match slookup resolved port with
        | some (.val _) => true
        | _ => false)
    else .ok false

/-- `inputs = {k: v for k, v in resolved.items() if v is not UNRESOLVED}`
(runner.py line 81): replace `UNRESOLVED` with a missing key. -/
def dropUnresolved (resolved : List (String × Resolved)) : Bindings :=
  resolved.filterMap fun (k, r) =>
    match r with
    | .val v => some (k, v)
    | .unresolved => none

/-- `Runner.execute_node` (runner.py lines 74–90): resolve inputs, drop
`UNRESOLVED` ports from the dict, resolve params, call
`node.execute(inputs, params)`. -/
def executeNode (uuid : Nat → String) (st : RState) (nid : String) :
    RState × Except PyErr Bindings :=
  match slookup st.instances nid with
  | none => (st, .ok [])
  | some ln =>
    let resolved := runnerResolveInputs st nid
    let inputs := dropUnresolved resolved
    let paramsDef := match nodeDefOf st nid with
      | some nd => nd.params
      | none => []
    let params := resolveParams paramsDef st.pipelineParams st.latestOutputs
      st.pipelineInputs
    let (ln', res) := leafExecute uuid ln inputs params
    ({ st with instances := sset st.instances nid ln' }, res)

/-- `Runner.save_output` (runner.py lines 92–95): store only non-`{}`. -/
def saveOutput (st : RState) (nid : String) (out : Bindings) : RState :=
  if out = [] then st
  else { st with latestOutputs := sset st.latestOutputs nid out }

/-- `Runner.get_latest_output`. -/
def getLatestOutput (st : RState) (nid : String) : Option Bindings :=
  slookup st.latestOutputs nid

/-- `Runner.step` (runner.py lines 107–118): first executable node in
declared order is executed once and its output saved; `True` iff a node
was executed.  An exception from `is_executable` or from the node's
`execute` propagates. -/
def runnerStep (uuid : Nat → String) (st : RState) : RState × Except PyErr Bool :=
  go st.nodesList
where
  go : List NodeDesc → RState × Except PyErr Bool
    | [] => (st, .ok false)
    | nd :: rest =>
      if nd.id = "" then go rest
      else
        match isExecutable st nd.id with
        | .error e => (st, .error e)
        | .ok false => go rest
        | .ok true =>
          match executeNode uuid st nd.id with
          | (st', .error e) => (st', .error e)
          | (st', .ok out) => (saveOutput st' nd.id out, .ok true)

/-! ## PipelineNode (`pipeline_node.py`) -/

/-- `_STATUS_PRIORITY`. -/
def statusPriority : List Status := [.fatal, .limit, .pause, .executing, .done, .ready]

/-- `_aggregate_status` (§6.7): first status of the priority list present
among the children, else `ready`. -/
def aggregateStatus (statuses : List Status) : Status :=
  match statusPriority.find? (fun s => statuses.contains s) with
  | some s => s
  | none => .ready

/-- The state of a `PipelineNode`: its `BaseNode` state, the graph, the
node factory (`load_node_class` per type), and — once initialized — the
runner state (which owns `latest_outputs` and `node_instances`).
`idleSince`/`ticks` model `_idle_since` and the monotonic-clock reads. -/
structure PState where
  base : BaseState := {}
  workspace : Workspace
  nodesList : List NodeDesc
  finalId : String
  factory : String → Option LeafBehavior
  runner : Option RState := none
  idleSince : Option Nat := none
  ticks : Nat := 0

/-- `self._status = st`. -/
def setStatus (ps : PState) (st : Status) : PState :=
  { ps with base := { ps.base with status := st } }

/-- `build_runner` (runner.py lines 121–147): instantiate every declared
node whose id/type are truthy and whose class loads; later duplicate
ids overwrite earlier instances (Python dict assignment). -/
def buildRunner (ws : Workspace) (factory : String → Option LeafBehavior)
    (nodesList : List NodeDesc) (finalId : String)
    (pipelineInputs pipelineParams : Bindings) : RState :=
  let instances := nodesList.foldl (fun acc nd =>
    if nd.id = "" || nd.type = "" then acc
    else match factory nd.type with
      | some b => sset acc nd.id { behavior := b, state := {} }
      | none => acc) []
  { workspace := ws, nodesList := nodesList, finalId := finalId,
    pipelineInputs := pipelineInputs, pipelineParams := pipelineParams,
    latestOutputs := [], instances := instances }

/-- `PipelineNode._init_context_if_needed` (pipeline_node.py lines 81–95):
reuse the runner and instances within one Execution Scope, refreshing
only the pipeline inputs/params. -/
def initContextIfNeeded (ps : PState) (inputs params : Bindings) : PState :=
  match ps.runner with
  | some r =>
    { ps with runner := some { r with pipelineInputs := inputs, pipelineParams := params } }
  | none =>
    { ps with runner := some (buildRunner ps.workspace ps.factory ps.nodesList
        ps.finalId inputs params) }

/-- `PipelineNode._aggregate_children_status`. -/
def aggregateChildren (ps : PState) : Status :=
  match ps.runner with
  | none => .ready
  | some r =>
    if r.instances.isEmpty then .ready
    else aggregateStatus (r.instances.map (fun p => p.2.state.status))

/-- `PipelineNode.read_node_calls` (§3.8): self plus all children. -/
def pipelineNodeCalls (ps : PState) : Nat :=
  ps.base.myNodeCalls + (match ps.runner with
    | none => 0
    | some r => (r.instances.map (fun p => p.2.state.myNodeCalls)).sum)

/-- `PipelineNode.get_final_output`: the stored latest output of the final
node, or `{}`. -/
def pipelineGetFinalOutput (ps : PState) : Bindings :=
  match ps.runner with
  | none => []
  | some r =>
    match slookup r.latestOutputs ps.finalId with
    | some out => out
    | none => []

/-- `n >= v` between a Python int and an arbitrary value (`bool` counts as
a number; any other right operand raises `TypeError`). -/
def pyGeNumVal (n : Int) (v : Val) : Except PyErr Bool :=
  match v with
  | .int m => .ok (decide (n ≥ m))
  | .bool b => .ok (decide (n ≥ (if b then 1 else 0)))
  | _ => .error (.typeErr "not supported between instances")

/-- `n > v` between a Python int and an arbitrary value. -/
def pyGtNumVal (n : Int) (v : Val) : Except PyErr Bool :=
  match v with
  | .int m => .ok (decide (n > m))
  | .bool b => .ok (decide (n > (if b then 1 else 0)))
  | _ => .error (.typeErr "not supported between instances")

/-- `limit_cfg = (params or {}).get("limit") or {}`. -/
def limitCfgOf (params : Bindings) : Val :=
  match alookup params "limit" with
  | some v => if pyTruthy v then v else .dict []
  | none => .dict []

/-- `PipelineNode._check_limit` (pipeline_node.py lines 103–112):
`max_total_node_calls` against the subtree node-call count, then
`max_idle_sec` against the monotonic clock.  Reading the clock consumes
a tick. -/
def checkLimit (clock : Nat → Nat) (ps : PState) (pipelineParams : Bindings) :
    PState × Except PyErr Bool :=
  match limitCfgOf pipelineParams with
  | .dict cfg =>
    let maxCalls : Option Val := match alookup cfg "max_total_node_calls" with
      | some .null => none
      | some v => some v
      | none => none
    let early : Option (PState × Except PyErr Bool) := match maxCalls with
      | none => none
      | some v =>
        match pyGeNumVal (pipelineNodeCalls ps) v with
        | .error e => some (ps, .error e)
        | .ok true => some (ps, .ok true)
        | .ok false => none
    match early with
    | some r => r
    | none =>
      let maxIdle : Option Val := match alookup cfg "max_idle_sec" with
        | some .null => none
        | some v => some v
        | none => none
      match maxIdle, ps.idleSince with
      | some v, some t0 =>
        let now := clock ps.ticks
        let ps := { ps with ticks := ps.ticks + 1 }
        match pyGeNumVal ((now : Int) - (t0 : Int)) v with
        | .error e => (ps, .error e)
        | .ok b => (ps, .ok b)
      | _, _ => (ps, .ok false)
  | _ => (ps, .error (.attrErr "object has no attribute get"))

/-- `PipelineNode._should_terminate`: terminal child aggregate, or all done
with the designated final node itself done. -/
def shouldTerminate (ps : PState) : Bool :=
  let agg := aggregateChildren ps
  if agg = .fatal ∨ agg = .limit ∨ agg = .pause then true
  else if agg ≠ .done then false
  else match ps.runner with
    | none => false
    | some r =>
      match slookup r.instances ps.finalId with
      | none => false
      | some fn => fn.state.status = .done

/-- `any(is_executable(nid) ...)` over the declared nodes, short-circuiting
like the Python generator (so a later exception is not reached). -/
def anyExecutable (r : RState) : List NodeDesc → Except PyErr Bool
  | [] => .ok false
  | nd :: rest =>
    if nd.id = "" then anyExecutable r rest
    else match isExecutable r nd.id with
      | .error e => .error e
      | .ok true => .ok true
      | .ok false => anyExecutable r rest

/-- `PipelineNode._is_idle` (pipeline_node.py lines 125–140): no executable
node and no executing node. -/
def isIdleCheck (ps : PState) : Except PyErr Bool :=
  match ps.runner with
  | none => .ok true
  | some r =>
    if r.instances.isEmpty then .ok true
    else do
      let anyExec ← anyExecutable r ps.nodesList
      if anyExec then .ok false
      else .ok (!(r.instances.any (fun p => p.2.state.status = .executing)))

/-- Lines 157–167 of `PipelineNode.run`: idle bookkeeping after one step.
`.ok (some out)` means the idle-limit fired and `run` returns `out` with
status `limit`. -/
def stepIdlePhase (clock : Nat → Nat) (pipelineParams : Bindings) (ps : PState)
    (progressed : Bool) : PState × Except PyErr (Option Bindings) :=
  if progressed then ({ ps with idleSince := none }, .ok none)
  else
    match isIdleCheck ps with
    | .error e => (ps, .error e)
    | .ok true =>
      let ps := match ps.idleSince with
        | none => { ps with idleSince := some (clock ps.ticks), ticks := ps.ticks + 1 }
        | some _ => ps
      match checkLimit clock ps pipelineParams with
      | (ps, .error e) => (ps, .error e)
      | (ps, .ok true) => (setStatus ps .limit, .ok (some (pipelineGetFinalOutput ps)))
      | (ps, .ok false) => (ps, .ok none)
    | .ok false => ({ ps with idleSince := none }, .ok none)

/-- The `while True` loop of `PipelineNode.run` (pipeline_node.py lines
154–180), with fuel. -/
def pipelineLoop (uuid : Nat → String) (clock : Nat → Nat) (pipelineParams : Bindings) :
    Nat → PState → Option (PState × Except PyErr RunVal)
  | 0, _ => none
  | fuel + 1, ps =>
    match ps.runner with
    | none => some (ps, .ok (.dict []))  -- unreachable: the loop starts with a runner
    | some r0 =>
      match runnerStep uuid r0 with
      | (r1, .error e) => some ({ ps with runner := some r1 }, .error e)
      | (r1, .ok progressed) =>
        let psA := { ps with runner := some r1 }
        let psB := setStatus psA (aggregateChildren psA)
        match stepIdlePhase clock pipelineParams psB progressed with
        | (psC, .error e) => some (psC, .error e)
        | (psC, .ok (some out)) => some (psC, .ok (.dict out))
        | (psC, .ok none) =>
          match checkLimit clock psC pipelineParams with
          | (psD, .error e) => some (psD, .error e)
          | (psD, .ok true) =>
            some (setStatus psD .limit, .ok (.dict (pipelineGetFinalOutput psD)))
          | (psD, .ok false) =>
            let agg := aggregateChildren psD
            if agg = .fatal ∨ agg = .limit ∨ agg = .pause then
              some (setStatus psD agg, .ok (.dict []))
            else if shouldTerminate psD then
              some (setStatus psD agg, .ok (.dict (pipelineGetFinalOutput psD)))
            else
              pipelineLoop uuid clock pipelineParams fuel psD

/-- `PipelineNode.run` (pipeline_node.py lines 142–180). -/
def pipelineRun (uuid : Nat → String) (clock : Nat → Nat) (fuel : Nat)
    (ps : PState) (inputs params : Bindings) :
    Option (PState × Except PyErr RunVal) :=
  let ps := initContextIfNeeded ps inputs params
  match ps.runner with
  | none => some (ps, .ok (.dict []))  -- `if runner is None: return {}`
  | some _ =>
    match checkLimit clock ps params with
    | (ps, .error e) => some (ps, .error e)
    | (ps, .ok true) => some (ps, .error (.limitSignal ""))  -- `raise LimitSignal()`
    | (ps, .ok false) =>
      let ps := { ps with idleSince := none }
      pipelineLoop uuid clock params fuel ps

/-- `PipelineNode.execute = BaseNode.execute` with `PipelineNode.run`. -/
def pipelineExecute (uuid : Nat → String) (clock : Nat → Nat) (fuel : Nat)
    (ps : PState) (inputs params : Bindings) :
    Option (PState × Except PyErr Bindings) :=
  execKernel (m := Option) (fun p => p.base) (fun p b => { p with base := b })
    (fun _ _ => false) (fun _ _ => false)
    (fun p i pr => pipelineRun uuid clock fuel p i pr)
    uuid ps inputs params

/-- The result dict of `PipelineNode.resume`. -/
structure ResumeResult where
  resumed : List String
  statuses : List (String × Status)
  deriving Repr, DecidableEq

/-- The sweep of `PipelineNode.resume` (pipeline_node.py lines 192–226)
over the declared nodes.  The children instantiated by `build_runner`
are argumentless `BaseNode` subclasses, which have no `resume`
attribute, so the `hasattr(node, "resume")` branch is vacuous here and
each paused child is re-run via `execute(resume_inputs, params)`; the
sweep stops after a child turns fatal, and an exception escaping
`execute` propagates. -/
def resumeSweep (uuid : Nat → String) (resumeInputs : Bindings) :
    RState → List NodeDesc → RState × Except PyErr (List String × List (String × Status))
  | r, [] => (r, .ok ([], []))
  | r, nd :: rest =>
    if nd.id = "" then resumeSweep uuid resumeInputs r rest
    else
      match slookup r.instances nd.id with
      | none => resumeSweep uuid resumeInputs r rest
      | some ln =>
        if ln.state.status = .pause then
          let params := resolveParams nd.params r.pipelineParams r.latestOutputs
            r.pipelineInputs
          match leafExecute uuid ln resumeInputs params with
          | (ln', .error e) =>
            ({ r with instances := sset r.instances nd.id ln' }, .error e)
          | (ln', .ok out) =>
            let r := { r with instances := sset r.instances nd.id ln' }
            let r := if out ≠ [] then saveOutput r nd.id out else r
            let st := ln'.state.status
            if st = .fatal then (r, .ok ([nd.id], [(nd.id, st)]))
            else
              match resumeSweep uuid resumeInputs r rest with
              | (r', .error e) => (r', .error e)
              | (r', .ok (ids, sts)) => (r', .ok (nd.id :: ids, (nd.id, st) :: sts))
        else resumeSweep uuid resumeInputs r rest

/-- `PipelineNode.resume` (pipeline_node.py lines 182–226): only legal in
status `pause`; resumes paused children in declared order.  Note that it
never updates the pipeline's own `_status`. -/
def pipelineResume (uuid : Nat → String) (ps : PState) (resumeInputs : Bindings) :
    PState × Except PyErr ResumeResult :=
  if ps.base.status ≠ .pause then
    (ps, .error (.invalidState "resume() only when status is pause"))
  else
    match ps.runner with
    | none => (ps, .ok ⟨[], []⟩)
    | some r =>
      if r.instances.isEmpty then (ps, .ok ⟨[], []⟩)
      else
        match resumeSweep uuid resumeInputs r ps.nodesList with
        | (r', .error e) => ({ ps with runner := some r' }, .error e)
        | (r', .ok (ids, sts)) => ({ ps with runner := some r' }, .ok ⟨ids, sts⟩)

/-! ## LoopNode (`loop_node.py`) -/

/-- `_get_value_by_path` (loop_node.py lines 13–26): `$` or a falsy path is
the object itself; otherwise strip a `$.`, split on `.` and walk dict
keys, yielding Python `None` (here `Val.null`) on any miss. -/
def getValueByPath (obj : Val) (path : String) : Val :=
  if path = "" || path = "$" then obj
  else
    let path := if strStartsWith path "$." then String.mk (path.toList.drop 2) else path
    go obj (splitOnDot path)
where
  go : Val → List String → Val
    | cur, [] => cur
    | cur, k :: rest =>
      match cur with
      | .dict fs =>
        match alookup fs k with
        | some v => go v rest
        | none => .null
      | _ => .null

/-- `isinstance(v, (int, float))` with integer values (`bool` is a subclass
of `int` in Python). -/
def pyNum : Val → Option Int
  | .int n => some n
  | .bool b => some (if b then 1 else 0)
  | _ => none

/-- `_evaluate_condition_impl` (loop_node.py lines 29–63): look the value up
at `path` (default `$`), error when it came back `None` off the root,
then apply the first operator present in the order
equals → not_equals → less_than → greater_than; no operator → `False`.
A non-string truthy `path` would make `startswith` raise
`AttributeError` (uncaught by the loop). -/
def evaluateConditionImpl (output : Val) (condition : Bindings) :
    Except PyErr Bool :=
  let pathVal : Val := match alookup condition "path" with
    | some v => if pyTruthy v then v else .str "$"
    | none => .str "$"
  match pathVal with
  | .str path =>
    let value := getValueByPath output path
    if value = .null ∧ path ≠ "$" then
      .error (.valueErr ("condition path not found: path=" ++ path ++
        " operator=N/A actual_value=None actual_type=missing"))
    else if hasKey condition "equals" then
      .ok (decide (value = (alookup condition "equals").getD .null))
    else if hasKey condition "not_equals" then
      .ok (decide (value ≠ (alookup condition "not_equals").getD .null))
    else if hasKey condition "less_than" then
      let ref := (alookup condition "less_than").getD .null
      match pyNum value, pyNum ref with
      | some a, some b => .ok (decide (a < b))
      | _, _ => .error (.typeErr "condition less_than type mismatch")
    else if hasKey condition "greater_than" then
      let ref := (alookup condition "greater_than").getD .null
      match pyNum value, pyNum ref with
      | some a, some b => .ok (decide (a > b))
      | _, _ => .error (.typeErr "condition greater_than type mismatch")
    else
      .ok false
  | _ => .error (.attrErr "object has no attribute startswith")

/-- `LoopNode._validate_condition_at_construction` (loop_node.py lines
85–97). -/
def validateCondition (condition : Bindings) : Except PyErr Unit :=
  if condition = [] then
    .error (.valueErr "LoopNode requires condition")
  else if !(hasKey condition "equals" || hasKey condition "not_equals" ||
      hasKey condition "less_than" || hasKey condition "greater_than") then
    .error (.valueErr "LoopNode condition requires an operator")
  else .ok ()

/-- The interface through which `LoopNode.run` drives its inner pipeline —
per its own contract (loop_node.py line 141: "Use only
pipeline.execute(), read_status(), get_latest_output(),
get_final_output()"), abstract in the pipeline's representation `π`. -/
structure PipeIface (π : Type) where
  exec : π → Bindings → Bindings → π
  readStatus : π → Status
  finalIdOf : π → String
  getLatest : π → String → Option Bindings
  getFinal : π → Bindings

/-- The state of a `LoopNode` over an abstract inner pipeline: its
`BaseNode` state, the validated condition, the inner pipeline, and a
ghost counter of `pipeline.execute()` invocations (observable in the
source as the growth of the inner pipeline's `_my_node_calls`). -/
structure LoopSt (π : Type) where
  base : BaseState := {}
  condition : Bindings
  pipeline : π
  execCalls : Nat := 0

/-- The `while True` loop of `LoopNode.run` (loop_node.py lines 147–175),
with fuel; `iteration` is the loop counter. -/
def loopIter {π : Type} (pif : PipeIface π) (maxIterations : Option Val)
    (inputs params : Bindings) :
    Nat → Nat → LoopSt π → Option (LoopSt π × Except PyErr RunVal)
  | 0, _, _ => none
  | fuel + 1, iteration, ls =>
    let iteration := iteration + 1
    let overLimit : Except PyErr Bool := match maxIterations with
      | none => .ok false
      | some mv => pyGtNumVal iteration mv
    match overLimit with
    | .error e => some (ls, .error e)
    | .ok true =>
      some (ls, .error (.limitSignal "max_iterations exceeded"))
    | .ok false =>
      let ls := { ls with pipeline := pif.exec ls.pipeline inputs params,
                          execCalls := ls.execCalls + 1 }
      let ls := { ls with base := { ls.base with status := pif.readStatus ls.pipeline } }
      if ls.base.status = .fatal ∨ ls.base.status = .pause then
        some (ls, .ok (.dict []))
      else if ls.base.status = .limit then
        some (ls, .ok (.dict (pif.getFinal ls.pipeline)))
      else if ls.base.status ≠ .done then
        loopIter pif maxIterations inputs params fuel iteration ls
      else
        let latest := pif.getLatest ls.pipeline (pif.finalIdOf ls.pipeline)
        let condInput : Val := match latest with
          | some out => .dict out
          | none => .dict []
        match evaluateConditionImpl condInput ls.condition with
        | .error (.valueErr m) =>
          some ({ ls with base := fatalState ls.base (.valueErr m) }, .ok (.dict []))
        | .error (.typeErr m) =>
          some ({ ls with base := fatalState ls.base (.typeErr m) }, .ok (.dict []))
        | .error e => some (ls, .error e)
        | .ok true =>
          some ({ ls with base := { ls.base with status := .done } },
            .ok (.dict (pif.getFinal ls.pipeline)))
        | .ok false => loopIter pif maxIterations inputs params fuel iteration ls

/-- `max_iterations = limit_cfg.get("max_iterations") if
isinstance(limit_cfg, dict) else None` (loop_node.py lines 143–146). -/
def loopMaxIterations (params : Bindings) : Option Val :=
  match limitCfgOf params with
  | .dict cfg =>
    match alookup cfg "max_iterations" with
    | some .null => none
    | some v => some v
    | none => none
  | _ => none

/-- `LoopNode.run` (loop_node.py lines 140–175): extract
`params.limit.max_iterations` (`None` unless the limit config is a
dict), then iterate. -/
def loopRun {π : Type} (pif : PipeIface π) (fuel : Nat) (ls : LoopSt π)
    (inputs params : Bindings) : Option (LoopSt π × Except PyErr RunVal) :=
  loopIter pif (loopMaxIterations params) inputs params fuel 0 ls

/-- `LoopNode.execute = BaseNode.execute` with `LoopNode.run`. -/
def loopExecute {π : Type} (pif : PipeIface π) (uuid : Nat → String) (fuel : Nat)
    (ls : LoopSt π) (inputs params : Bindings) :
    Option (LoopSt π × Except PyErr Bindings) :=
  execKernel (m := Option) (fun l => l.base) (fun l b => { l with base := b })
    (fun _ _ => false) (fun _ _ => false)
    (fun l i pr => loopRun pif fuel l i pr)
    uuid ls inputs params

/-! ## Operations of one Execution Scope (for the stickiness claim) -/

/-- An externally driven operation on a pipeline within one Execution
Scope: one `Runner.step()` or one `PipelineNode.resume(inputs)`. -/
inductive Op where
  | step
  | resume (inputs : Bindings)

/-- Apply one operation to the pipeline state (keeping whatever state the
operation left behind if it raised). -/
def applyOp (uuid : Nat → String) (ps : PState) : Op → PState
  | .step =>
    match ps.runner with
    | none => ps
    | some r => { ps with runner := some (runnerStep uuid r).1 }
  | .resume inputs => (pipelineResume uuid ps inputs).1

/-- Apply a sequence of operations in order. -/
def applyOps (uuid : Nat → String) (ops : List Op) (ps : PState) : PState :=
  ops.foldl (applyOp uuid) ps

/-! ## Concrete fixtures used by the claim theorems -/

/-- A fixed `uuid.uuid4()` stream for concrete scenarios. -/
def uuidFixed : Nat → String := fun _ => "00000000-0000-4000-8000-000000000000"

/-- A fixed monotonic clock for concrete scenarios. -/
def clockFixed : Nat → Nat := fun _ => 0

/-- A `run` that returns an output port whose `_meta` is the string
`"x"` — legal for `run` (it returns a dict), but `_apply_revision_to_output`
then calls `.get` on that string. -/
def badMetaBehavior : LeafBehavior :=
  ⟨fun _ _ _ => .ok (.dict [("p", .dict [("_meta", .str "x")])])⟩

/-- A fresh instance of the bad-`_meta` node. -/
def badMetaNode : LeafNode := { behavior := badMetaBehavior, state := {} }

/-- The §8 pause-and-resume node: `run` raises `PauseSignal` on the first
call and, on a re-execution, returns `{ok: {value: <token input>}}`. -/
def pauseBehavior : LeafBehavior :=
  ⟨fun idx i _ =>
    if idx = 0 then .error (.pauseSignal "waiting for token")
    else .ok (.dict [("ok", .dict [("value", (alookup i "token").getD .null)])])⟩

/-- The pause-and-resume pipeline: a single node `p` of type `t`, which is
also the final node; no node.yaml schemas. -/
def pausePipeline : PState :=
  { workspace := fun _ => none,
    nodesList := [{ id := "p", type := "t" }],
    finalId := "p",
    factory := fun ty => if ty = "t" then some pauseBehavior else none }

/-- The pipeline state after the initial `execute({}, {})`. -/
def pausePipelineAfterExec : PState :=
  match pipelineExecute uuidFixed clockFixed 10 pausePipeline [] [] with
  | some (ps, _) => ps
  | none => pausePipeline

/-- The pipeline state and result of the subsequent `resume({token: 42})`. -/
def pausePipelineResumed : PState × Except PyErr ResumeResult :=
  pipelineResume uuidFixed pausePipelineAfterExec [("token", .int 42)]

/-! ## C1 -/

/-- **C1** (code_bug evaluation).  The claim says `BaseNode.execute` never
raises and converts every exception from user code to a status.  But when
`run` returns normally with a port whose `_meta` is a string not containing
`"revision"` (e.g. `{"p": {"_meta": "x"}}`), `_apply_revision_to_output`
evaluates `port_value.get("_meta", {}).get("hash_skip")` on that string and
raises `AttributeError`, which the kernel's `except (TypeError, ValueError)`
does not catch: `execute` itself raises, with the node left in status
`executing`.  This contradicts the claim (and the kernel's own docstring
"Always returns a dict"). -/
theorem c1_execute_raises_on_string_meta :
    (leafExecute uuidFixed badMetaNode [] []).2 =
      .error (.attrErr "str object has no attribute get") ∧
    (leafExecute uuidFixed badMetaNode [] []).1.state.status = .executing ∧
    badMetaBehavior.run 0 [] [] = .ok (.dict [("p", .dict [("_meta", .str "x")])]) := by
  refine ⟨rfl, rfl, rfl⟩

/-! ## C2 -/

/-- **C2** (code_bug evaluation).  In the §8 pause-and-resume scenario, after
`execute({}, {})` the pipeline is paused with empty final output; after
`resume({token: 42})` the resumed child `p` reports status `done`, the final
output is `{ok: {value: 42, _meta: {revision: <sha256 of {"value":42}>}}}` —
but the pipeline's own `read_status()` still returns `pause`, not `done` as
the claim states, because `PipelineNode.resume` never updates `self._status`
(contradicting `read_status`'s documented aggregation from children). -/
theorem c2_resume_status_stays_pause :
    pausePipelineAfterExec.base.status = .pause ∧
    pipelineGetFinalOutput pausePipelineAfterExec = [] ∧
    pausePipelineResumed.2 = .ok ⟨["p"], [("p", .done)]⟩ ∧
    pipelineGetFinalOutput pausePipelineResumed.1 =
      [("ok", .dict [("value", .int 42),
        ("_meta", .dict [("revision",
          .str (sha256hexOfVal (.dict [("value", .int 42)])))])])] ∧
    pausePipelineResumed.1.base.status = .pause := by
  refine ⟨rfl, rfl, rfl, rfl, rfl⟩

/-! ## C3 -/

/-- A leaf behavior that succeeds with an empty output. -/
def emptyOkBehavior : LeafBehavior := ⟨fun _ _ _ => .ok (.dict [])⟩

/-- A runner state with one node `a` of type `t`, no node.yaml for `t`,
and a declared binding `x: ${inputs.x}` that does not resolve (the
pipeline inputs are empty). -/
def missingSchemaState : RState :=
  { workspace := fun _ => none,
    nodesList := [{ id := "a", type := "t",
                    inputs := [("x", .str "$\x7binputs.x\x7d")] }],
    finalId := "a", pipelineInputs := [], pipelineParams := [],
    latestOutputs := [],
    instances := [("a", { behavior := emptyOkBehavior, state := {} })] }

/-- **C3** (counterexample).  Node `a` has no node.yaml and its only declared
binding resolves to UNRESOLVED — yet `is_executable` is `True`, because a
missing schema yields an EMPTY required set, not "all bindings required" as
the claim states. -/
theorem c3_counterexample :
    runnerResolveInputs missingSchemaState "a" = [("x", .unresolved)] ∧
    getRequiredInputPorts missingSchemaState.workspace "t" = .ok [] ∧
    isExecutable missingSchemaState "a" = .ok true := by
  refine ⟨rfl, rfl, rfl⟩

/-- **C3** (amended).  For a node whose node.yaml is missing, the required
set is empty, so `is_executable` ignores the bindings entirely: it is
`True` iff the instance's status is `ready` or `done`, regardless of any
declared binding resolving to UNRESOLVED. -/
theorem c3_missing_schema_no_required (st : RState) (nid : String)
    (ln : LeafNode) (nd : NodeDesc)
    (hln : slookup st.instances nid = some ln)
    (hnd : nodeDefOf st nid = some nd)
    (hws : st.workspace nd.type = none) :
    getRequiredInputPorts st.workspace nd.type = .ok [] ∧
    isExecutable st nid =
      .ok (decide (ln.state.status = .ready ∨ ln.state.status = .done)) := by
  have hreq : getRequiredInputPorts st.workspace nd.type = .ok [] := by
    simp only [getRequiredInputPorts, loadNodeYaml, hws]
    rfl
  refine ⟨hreq, ?_⟩
  by_cases hst : ln.state.status = .ready ∨ ln.state.status = .done
  · simp only [isExecutable, hln, hnd, if_pos hst, hreq]
    simp [hst]
    rfl
  · simp [isExecutable, hln, hnd, hst]

/-- Witness for `c3_missing_schema_no_required` at the concrete
counterexample state. -/
theorem c3_missing_schema_no_required_witness :
    isExecutable missingSchemaState "a" = .ok true :=
  by
    have h := c3_missing_schema_no_required missingSchemaState "a"
      { behavior := emptyOkBehavior, state := {} }
      { id := "a", type := "t", inputs := [("x", .str "$\x7binputs.x\x7d")] }
      rfl rfl rfl
    simpa using h.2

/-! ## C10 -/

theorem mem_dropUnresolved (resolved : List (String × Resolved)) (k : String)
    (v : Val) : (k, v) ∈ dropUnresolved resolved ↔ (k, Resolved.val v) ∈ resolved := by
  induction resolved with
  | nil => simp [dropUnresolved]
  | cons p rest ih =>
    obtain ⟨k', r⟩ := p
    cases r with
    | val w =>
      simp only [dropUnresolved, List.filterMap_cons] at *
      simp only [List.mem_cons, ih, Prod.mk.injEq]
      constructor
      · rintro (⟨hk, hv⟩ | h)
        · exact Or.inl (by simp [hk, hv])
        · exact Or.inr h
      · rintro (h | h)
        · obtain ⟨hk, hv⟩ := h
          exact Or.inl ⟨hk, (Resolved.val.inj hv)⟩
        · exact Or.inr h
    | unresolved =>
      simp only [dropUnresolved, List.filterMap_cons] at *
      simp only [List.mem_cons, ih]
      constructor
      · exact Or.inr
      · rintro (h | h)
        · exact absurd (Prod.mk.inj h).2 (fun hh => Resolved.noConfusion hh)
        · exact h

theorem slookup_dropUnresolved_none (resolved : List (String × Resolved))
    (k : String) (h : ∀ v : Val, (k, Resolved.val v) ∉ resolved) :
    slookup (dropUnresolved resolved) k = none := by
  induction resolved with
  | nil => rfl
  | cons p rest ih =>
    obtain ⟨k', r⟩ := p
    have hrest : ∀ v : Val, (k, Resolved.val v) ∉ rest := by
      intro v hv
      exact h v (List.mem_cons_of_mem _ hv)
    cases r with
    | val w =>
      have hk : k' ≠ k := by
        intro hk
        exact h w (by simp [hk])
      simp only [dropUnresolved, List.filterMap_cons]
      simpa [slookup, hk] using ih hrest
    | unresolved =>
      simp only [dropUnresolved, List.filterMap_cons]
      exact ih hrest

/-- **C10** (confirmed).  The inputs dict the scheduler passes to
`node.execute` never contains the UNRESOLVED sentinel: `execute_node`
passes exactly `dropUnresolved (resolve_inputs ...)`, whose entries are
precisely the resolved bindings with their values (first conjunct), and a
port all of whose bindings are unresolved is simply absent (second
conjunct); the third conjunct is the `execute_node` equation showing the
node is invoked on exactly that filtered dict. -/
theorem c10_no_unresolved_sentinel_in_inputs :
    (∀ (resolved : List (String × Resolved)) (k : String) (v : Val),
      (k, v) ∈ dropUnresolved resolved ↔ (k, Resolved.val v) ∈ resolved) ∧
    (∀ (resolved : List (String × Resolved)) (k : String),
      (∀ v : Val, (k, Resolved.val v) ∉ resolved) →
      slookup (dropUnresolved resolved) k = none) ∧
    (∀ (uuid : Nat → String) (st : RState) (nid : String) (ln : LeafNode),
      slookup st.instances nid = some ln →
      executeNode uuid st nid =
        (let inputs := dropUnresolved (runnerResolveInputs st nid)
         let params := resolveParams
           (match nodeDefOf st nid with
            | some nd => nd.params
            | none => []) st.pipelineParams st.latestOutputs st.pipelineInputs
         let (ln', res) := leafExecute uuid ln inputs params
         ({ st with instances := sset st.instances nid ln' }, res))) := by
  refine ⟨mem_dropUnresolved, slookup_dropUnresolved_none, ?_⟩
  intro uuid st nid ln hln
  simp only [executeNode, hln]

/-- Witness for `c10_no_unresolved_sentinel_in_inputs`: at the
missing-schema state, the unresolved port `x` is absent from the inputs
dict passed to the node. -/
theorem c10_no_unresolved_sentinel_witness :
    slookup (dropUnresolved (runnerResolveInputs missingSchemaState "a")) "x" = none :=
  c10_no_unresolved_sentinel_in_inputs.2.1
    (runnerResolveInputs missingSchemaState "a") "x"
    (by
      intro v hv
      rw [show runnerResolveInputs missingSchemaState "a" = [("x", .unresolved)]
        from rfl] at hv
      simp at hv)

/-! ## C6 -/

theorem slookup_sset_ne {β : Type} (l : List (String × β)) (k k' : String) (v : β)
    (h : k ≠ k') : slookup (sset l k v) k' = slookup l k' := by
  induction l with
  | nil => simp [sset, slookup, h]
  | cons p rest ih =>
    obtain ⟨k₀, v₀⟩ := p
    by_cases hk : k₀ = k
    · subst hk
      simp [sset, slookup, h]
    · simp only [sset, if_neg hk, slookup]
      by_cases hk' : k₀ = k' <;> simp [hk', ih]

/-- `is_executable` can only report `True` for an existing instance whose
status is `ready` or `done`. -/
theorem isExecutable_true_status (st : RState) (nid : String)
    (h : isExecutable st nid = .ok true) :
    ∃ ln, slookup st.instances nid = some ln ∧
      (ln.state.status = .ready ∨ ln.state.status = .done) := by
  unfold isExecutable at h
  rcases hln : slookup st.instances nid with _ | ln
  · rw [hln] at h
    simp at h
  · rw [hln] at h
    dsimp only at h
    refine ⟨ln, rfl, ?_⟩
    by_cases hst : ln.state.status = .ready ∨ ln.state.status = .done
    · exact hst
    · rw [if_neg hst] at h
      simp at h

/-- `execute_node` leaves the instances of all other node ids untouched. -/
theorem executeNode_preserves (uuid : Nat → String) (st : RState)
    (nid' nid : String) (h : nid' ≠ nid) :
    slookup (executeNode uuid st nid').1.instances nid = slookup st.instances nid := by
  match hln : slookup st.instances nid' with
  | none => simp [executeNode, hln]
  | some ln =>
    simp only [executeNode, hln]
    exact slookup_sset_ne _ _ _ _ h

/-- `save_output` never touches the instances. -/
theorem saveOutput_instances (st : RState) (nid : String) (out : Bindings) :
    (saveOutput st nid out).instances = st.instances := by
  unfold saveOutput
  split <;> rfl

theorem stepGo_preserves (uuid : Nat → String) (st : RState)
    (l : List NodeDesc) (nid : String) (ln : LeafNode)
    (hln : slookup st.instances nid = some ln)
    (hr : ln.state.status ≠ .ready) (hd : ln.state.status ≠ .done) :
    slookup (runnerStep.go uuid st l).1.instances nid = some ln := by
  induction l with
  | nil => simpa [runnerStep.go] using hln
  | cons nd rest ih =>
    by_cases hid : nd.id = ""
    · simpa [runnerStep.go, hid] using ih
    · match hex : isExecutable st nd.id with
      | .error e => simpa [runnerStep.go, hid, hex] using hln
      | .ok false => simpa [runnerStep.go, hid, hex] using ih
      | .ok true =>
        obtain ⟨ln₂, hln₂, hst₂⟩ := isExecutable_true_status st nd.id hex
        have hne : nd.id ≠ nid := by
          intro hh
          rw [hh, hln] at hln₂
          cases Option.some.inj hln₂
          rcases hst₂ with h2 | h2
          · exact hr h2
          · exact hd h2
        have hpres := executeNode_preserves uuid st nd.id nid hne
        rcases hexe : executeNode uuid st nd.id with ⟨st', res⟩
        rw [hexe] at hpres
        dsimp only at hpres
        rw [hln] at hpres
        simp only [runnerStep.go, hid, hex, hexe]
        rcases res with e | out
        · dsimp only
          exact hpres
        · simp only [if_false, saveOutput_instances]
          exact hpres

/-- `Runner.step` never touches an instance that is not `ready`/`done`. -/
theorem runnerStep_preserves (uuid : Nat → String) (st : RState)
    (nid : String) (ln : LeafNode)
    (hln : slookup st.instances nid = some ln)
    (hr : ln.state.status ≠ .ready) (hd : ln.state.status ≠ .done) :
    slookup (runnerStep uuid st).1.instances nid = some ln :=
  stepGo_preserves uuid st st.nodesList nid ln hln hr hd

theorem resumeSweep_preserves (uuid : Nat → String) (inputs : Bindings) :
    ∀ (l : List NodeDesc) (r : RState) (nid : String) (ln : LeafNode),
    slookup r.instances nid = some ln →
    ln.state.status ≠ .pause →
    slookup (resumeSweep uuid inputs r l).1.instances nid = some ln := by
  intro l
  induction l with
  | nil => intro r nid ln hln _; simpa [resumeSweep] using hln
  | cons nd rest ih =>
    intro r nid ln hln hnp
    by_cases hid : nd.id = ""
    · simpa [resumeSweep, hid] using ih r nid ln hln hnp
    · match hln₂ : slookup r.instances nd.id with
      | none => simpa [resumeSweep, hid, hln₂] using ih r nid ln hln hnp
      | some ln₂ =>
        by_cases hp : ln₂.state.status = .pause
        · have hne : nd.id ≠ nid := by
            intro hh
            rw [hh, hln] at hln₂
            cases Option.some.inj hln₂
            exact hnp hp
          simp only [resumeSweep, hid, if_neg (fun hh : nd.id = "" => hid hh), hln₂,
            if_pos hp]
          match hexe : leafExecute uuid ln₂ inputs (resolveParams nd.params
              r.pipelineParams r.latestOutputs r.pipelineInputs) with
          | (ln₂', .error e) =>
            simpa [slookup_sset_ne _ _ _ _ hne] using hln
          | (ln₂', .ok out) =>
            have hln' : slookup (if out ≠ [] then
                saveOutput { r with instances := sset r.instances nd.id ln₂' }
                  nd.id out
              else { r with instances := sset r.instances nd.id ln₂' }).instances
                nid = some ln := by
              split
              · rw [saveOutput_instances]
                simpa [slookup_sset_ne _ _ _ _ hne] using hln
              · simpa [slookup_sset_ne _ _ _ _ hne] using hln
            by_cases hf : ln₂'.state.status = .fatal
            · simpa [hf] using hln'
            · have hrec := ih _ nid ln hln' hnp
              simp only [hf]
              match hsw : resumeSweep uuid inputs (if out ≠ [] then
                  saveOutput { r with instances := sset r.instances nd.id ln₂' }
                    nd.id out
                else { r with instances := sset r.instances nd.id ln₂' }) rest with
              | (r', .error e) => rw [hsw] at hrec; simpa [hf] using hrec
              | (r', .ok p) => rw [hsw] at hrec; simpa [hf] using hrec
        · simpa [resumeSweep, hid, hln₂, hp] using ih r nid ln hln hnp

/-- A node instance by id, through the pipeline container. -/
def instanceOf (ps : PState) (nid : String) : Option LeafNode :=
  match ps.runner with
  | none => none
  | some r => slookup r.instances nid

theorem pipelineResume_preserves (uuid : Nat → String) (ps : PState)
    (inputs : Bindings) (nid : String) (ln : LeafNode)
    (hln : instanceOf ps nid = some ln)
    (hnp : ln.state.status ≠ .pause) :
    instanceOf (pipelineResume uuid ps inputs).1 nid = some ln := by
  unfold pipelineResume
  by_cases hs : ps.base.status = .pause
  · rw [if_neg (fun hne => hne hs)]
    rcases hr : ps.runner with _ | r
    · dsimp only
      exact hln
    · unfold instanceOf at hln
      rw [hr] at hln
      dsimp only at hln
      dsimp only
      by_cases he : r.instances.isEmpty
      · rw [if_pos he]
        dsimp only
        unfold instanceOf
        rw [hr]
        exact hln
      · rw [if_neg he]
        have hsw := resumeSweep_preserves uuid inputs ps.nodesList r nid ln hln hnp
        rcases hsw2 : resumeSweep uuid inputs r ps.nodesList with ⟨r', res⟩
        rw [hsw2] at hsw
        dsimp only at hsw
        rcases res with e | p
        · dsimp only
          unfold instanceOf
          dsimp only
          exact hsw
        · dsimp only
          unfold instanceOf
          dsimp only
          exact hsw
  · rw [if_pos hs]
    exact hln

theorem applyOp_preserves (uuid : Nat → String) (ps : PState) (op : Op)
    (nid : String) (ln : LeafNode)
    (hln : instanceOf ps nid = some ln)
    (hr : ln.state.status ≠ .ready) (hd : ln.state.status ≠ .done)
    (hp : ln.state.status ≠ .pause) :
    instanceOf (applyOp uuid ps op) nid = some ln := by
  cases op with
  | step =>
    match hrun : ps.runner with
    | none =>
      rw [instanceOf, hrun] at hln
      simp at hln
    | some r =>
      rw [instanceOf, hrun] at hln
      simpa [applyOp, hrun, instanceOf] using
        runnerStep_preserves uuid r nid ln hln hr hd
  | resume inputs => exact pipelineResume_preserves uuid ps inputs nid ln hln hp

/-- **C6** (confirmed).  (a) `is_executable` is `False` for every status
other than `ready`/`done` (in particular for `limit` and `fatal`); and
(b) once an instance is `limit` or `fatal`, any sequence of
`Runner.step()` and `PipelineNode.resume()` operations in the same
Execution Scope leaves that instance — status, error and `my_node_calls`
included — completely unchanged, so `execute` is never invoked on it
again (the resume sweep only touches children whose status is `pause`). -/
theorem c6_limit_fatal_never_reexecuted :
    (∀ (st : RState) (nid : String) (ln : LeafNode),
      slookup st.instances nid = some ln →
      ln.state.status ≠ .ready → ln.state.status ≠ .done →
      isExecutable st nid = .ok false) ∧
    (∀ (uuid : Nat → String) (ps : PState) (nid : String) (ln : LeafNode)
      (ops : List Op),
      instanceOf ps nid = some ln →
      (ln.state.status = .limit ∨ ln.state.status = .fatal) →
      instanceOf (applyOps uuid ops ps) nid = some ln) := by
  constructor
  · intro st nid ln hln hr hd
    have hst : ¬(ln.state.status = .ready ∨ ln.state.status = .done) := by
      rintro (h | h)
      · exact hr h
      · exact hd h
    simp [isExecutable, hln, hst]
  · intro uuid ps nid ln ops hln hlf
    have hr : ln.state.status ≠ .ready := by
      rcases hlf with h | h <;> simp [h]
    have hd : ln.state.status ≠ .done := by
      rcases hlf with h | h <;> simp [h]
    have hp : ln.state.status ≠ .pause := by
      rcases hlf with h | h <;> simp [h]
    induction ops generalizing ps with
    | nil => simpa [applyOps] using hln
    | cons op rest ih =>
      have h1 := applyOp_preserves uuid ps op nid ln hln hr hd hp
      simpa [applyOps] using ih (applyOp uuid ps op) h1

/-- A limit node instance for the stickiness witness. -/
def limitNodeInstance : LeafNode :=
  { behavior := emptyOkBehavior,
    state := { status := .limit, error := none, myNodeCalls := 3 } }

/-- A pipeline whose node `a` is already `limit`. -/
def limitPipeline : PState :=
  { base := { status := .pause },
    workspace := fun _ => none,
    nodesList := [{ id := "a", type := "t" }],
    finalId := "a",
    factory := fun _ => some emptyOkBehavior,
    runner := some
      { workspace := fun _ => none,
        nodesList := [{ id := "a", type := "t" }],
        finalId := "a", pipelineInputs := [], pipelineParams := [],
        latestOutputs := [],
        instances := [("a", limitNodeInstance)] } }

/-- Witness for `c6_limit_fatal_never_reexecuted`: a `limit` node survives a
step and a resume untouched. -/
theorem c6_limit_fatal_never_reexecuted_witness :
    instanceOf (applyOps uuidFixed [.step, .resume []] limitPipeline) "a" =
      some limitNodeInstance :=
  c6_limit_fatal_never_reexecuted.2 uuidFixed limitPipeline "a"
    limitNodeInstance [.step, .resume []] rfl (Or.inl rfl)

/-! ## C4 -/

theorem stepGo_all_blocked (uuid : Nat → String) (st : RState)
    (l : List NodeDesc)
    (h : ∀ nd ∈ l, nd.id = "" ∨ isExecutable st nd.id = .ok false) :
    runnerStep.go uuid st l = (st, .ok false) := by
  induction l with
  | nil => rfl
  | cons nd rest ih =>
    have hrest := ih (fun m hm => h m (List.mem_cons_of_mem _ hm))
    by_cases hid : nd.id = ""
    · simpa [runnerStep.go, hid] using hrest
    · rcases h nd (List.mem_cons_self _ _) with hid' | hex
      · exact absurd hid' hid
      · simpa [runnerStep.go, hid, hex] using hrest

theorem stepGo_first_executable (uuid : Nat → String) (st : RState) :
    ∀ (pre : List NodeDesc) (nd : NodeDesc) (post : List NodeDesc),
    (∀ m ∈ pre, m.id = "" ∨ isExecutable st m.id = .ok false) →
    nd.id ≠ "" → isExecutable st nd.id = .ok true →
    runnerStep.go uuid st (pre ++ nd :: post) =
      (match executeNode uuid st nd.id with
       | (st', .error e) => (st', .error e)
       | (st', .ok out) => (saveOutput st' nd.id out, .ok true)) := by
  intro pre
  induction pre with
  | nil =>
    intro nd post _ hid hex
    simp [runnerStep.go, hid, hex]
  | cons m rest ih =>
    intro nd post hpre hid hex
    have hih := ih nd post (fun x hx => hpre x (List.mem_cons_of_mem _ hx)) hid hex
    by_cases hmid : m.id = ""
    · simpa [runnerStep.go, hmid] using hih
    · rcases hpre m (List.mem_cons_self _ _) with hmid' | hmex
      · exact absurd hmid' hmid
      · simpa [runnerStep.go, hmid, hmex] using hih

/-- **C4** (confirmed).  `Runner.step()` scans the descriptors in declared
order: if no node (with a truthy id) is executable it returns `False` and
changes nothing; otherwise the first executable node — every node listed
before it being skipped or non-executable — is executed exactly once via
the node kernel, its output is stored into the LatestOutputStore iff it is
non-empty (instances untouched by the store), and `True` is returned.  In
particular, with executable nodes A (listed first) and B, A runs. -/
theorem c4_step_first_in_declared_order :
    (∀ (uuid : Nat → String) (st : RState),
      (∀ nd ∈ st.nodesList, nd.id = "" ∨ isExecutable st nd.id = .ok false) →
      runnerStep uuid st = (st, .ok false)) ∧
    (∀ (uuid : Nat → String) (st : RState) (pre : List NodeDesc)
       (nd : NodeDesc) (post : List NodeDesc),
      st.nodesList = pre ++ nd :: post →
      (∀ m ∈ pre, m.id = "" ∨ isExecutable st m.id = .ok false) →
      nd.id ≠ "" → isExecutable st nd.id = .ok true →
      ∀ st' out, executeNode uuid st nd.id = (st', .ok out) →
        runnerStep uuid st = (saveOutput st' nd.id out, .ok true) ∧
        (saveOutput st' nd.id out).latestOutputs =
          (if out = [] then st'.latestOutputs
           else sset st'.latestOutputs nd.id out) ∧
        (saveOutput st' nd.id out).instances = st'.instances) := by
  constructor
  · intro uuid st h
    exact stepGo_all_blocked uuid st st.nodesList h
  · intro uuid st pre nd post hsplit hpre hid hex st' out hexe
    have hgo := stepGo_first_executable uuid st pre nd post hpre hid hex
    refine ⟨?_, ?_, saveOutput_instances st' nd.id out⟩
    · show runnerStep.go uuid st st.nodesList = _
      rw [hsplit, hgo, hexe]
    · unfold saveOutput
      split
      · simp_all
      · rfl

/-- Two always-executable nodes for the order-determinism witness. -/
def stepDemoBehavior : LeafBehavior :=
  ⟨fun _ _ _ => .ok (.dict [("out", .dict [("v", .int 1)])])⟩

/-- A runner state with two simultaneously executable nodes `a` (listed
first) and `b`. -/
def stepDemoState : RState :=
  { workspace := fun _ => none,
    nodesList := [{ id := "a", type := "t" }, { id := "b", type := "t" }],
    finalId := "b", pipelineInputs := [], pipelineParams := [],
    latestOutputs := [],
    instances := [("a", { behavior := stepDemoBehavior, state := {} }),
                  ("b", { behavior := stepDemoBehavior, state := {} })] }

/-- The output node `a` produces (with its stamped revision). -/
def stepDemoOut : Bindings :=
  [("out", .dict [("v", .int 1),
    ("_meta", .dict [("revision", .str (sha256hexOfVal (.dict [("v", .int 1)])))])])]

/-- Witness for `c4_step_first_in_declared_order`: with `a` and `b` both
executable, `step` runs `a` (listed first) and returns `True`. -/
theorem c4_step_first_in_declared_order_witness :
    runnerStep uuidFixed stepDemoState =
      (saveOutput (executeNode uuidFixed stepDemoState "a").1 "a" stepDemoOut,
        .ok true) :=
  (c4_step_first_in_declared_order.2 uuidFixed stepDemoState []
    { id := "a", type := "t" } [{ id := "b", type := "t" }] rfl
    (by intro m hm; exact absurd hm (List.not_mem_nil m))
    (by decide) rfl (executeNode uuidFixed stepDemoState "a").1 stepDemoOut
    rfl).1

/-! ## C5 -/

/-- The C5 premise on a port value: no pre-existing `_meta.revision` and no
`_meta.hash_skip == True` (the `_meta`, if present at all, is a dict). -/
def freshMeta (fs : Bindings) : Bool :=
  match alookup fs "_meta" with
  | none => true
  | some (.dict mfs) =>
    !hasKey mfs "revision" && !(decide (alookup mfs "hash_skip" = some (.bool true)))
  | some _ => false

/-- The `_meta.revision` entry of a stamped port value. -/
def stampedRevision (res : Except PyErr (Val × Nat)) : Option Val :=
  match res with
  | .ok (.dict fs, _) =>
    match alookup fs "_meta" with
    | some (.dict mfs) => alookup mfs "revision"
    | _ => none
  | _ => none

/-- Overwrite the `_meta` field of the (nested) dict reached by following
the keys `ks` — the generic "change only the `_meta` of a (nested)
value" edit. -/
def setMetaAt : Val → List String → Val → Val
  | v, [], m =>
    match v with
    | .dict fs => .dict (aset fs "_meta" m)
    | v => v
  | v, k :: ks, m =>
    match v with
    | .dict fs =>
      .dict (fs.map (fun p => if p.1 = k then (p.1, setMetaAt p.2 ks m) else p))
    | v => v

/-- A collision of the content hash `sha256 ∘ canonical-JSON`: two distinct
values with the same digest.  Provably such values exist in principle
(pigeonhole), but exhibiting one is finding a SHA-256 collision. -/
def HashCollision : Prop :=
  ∃ a b : Val, a ≠ b ∧ sha256hexOfVal a = sha256hexOfVal b

theorem alookup_aset_self (fs : Bindings) (k : String) (v : Val) :
    alookup (aset fs k v) k = some v := by
  induction fs with
  | nil => simp [aset, alookup]
  | cons p rest ih =>
    obtain ⟨k', v'⟩ := p
    by_cases hk : k' = k
    · simp [aset, alookup, hk]
    · simp [aset, alookup, hk, ih]

theorem stripMetaFields_aset_meta (fs : Bindings) (m : Val) :
    stripMetaFields (aset fs "_meta" m) = stripMetaFields fs := by
  induction fs with
  | nil => simp [aset, stripMetaFields]
  | cons p rest ih =>
    obtain ⟨k, v⟩ := p
    by_cases hk : k = "_meta"
    · simp [aset, stripMetaFields, hk]
    · simp [aset, stripMetaFields, hk, ih]

/-- On a fresh port value the stamper assigns exactly the SHA-256 hex digest
of the canonical serialization of the `_meta`-stripped value. -/
theorem stampedRevision_fresh (uuid : Nat → String) (uctr : Nat)
    (pname : String) (fs : Bindings) (h : freshMeta fs = true) :
    stampedRevision (stampPort uuid uctr pname (.dict fs)) =
      some (.str (sha256hexOfVal (stripMeta (.dict fs)))) := by
  unfold freshMeta at h
  rcases halm : alookup fs "_meta" with _ | mv
  · have hhk : hasKey fs "_meta" = false := by simp [hasKey, halm]
    have hstrip : stripMeta (.dict (aset fs "_meta" (.dict []))) =
        stripMeta (.dict fs) := by
      simp [stripMeta, stripMetaFields_aset_meta]
    simp only [stampPort, hhk, Bool.false_eq_true, if_false, alookup_aset_self]
    simp [stampedRevision, alookup_aset_self, hasKey, alookup, hstrip]
  · rw [halm] at h
    rcases mv with _ | b | n | sv | xs | mfs <;> simp only at h
    case null => exact absurd h (by simp)
    case bool => exact absurd h (by simp)
    case int => exact absurd h (by simp)
    case str => exact absurd h (by simp)
    case arr => exact absurd h (by simp)
    case dict =>
      have hhk : hasKey fs "_meta" = true := by simp [hasKey, halm]
      have hrev : hasKey mfs "revision" = false := by
        by_contra hc
        rw [Bool.not_eq_false] at hc
        simp [hc] at h
      have hskip : ¬(alookup mfs "hash_skip" = some (.bool true)) := by
        intro hc
        simp [hc] at h
      simp only [stampPort, hhk, if_true, halm, hrev, Bool.false_eq_true, if_false,
        if_neg hskip]
      simp [stampedRevision, alookup_aset_self]

theorem stripMeta_setMetaAt (ks : List String) (v m : Val) :
    stripMeta (setMetaAt v ks m) = stripMeta v := by
  induction ks generalizing v with
  | nil =>
    rcases v with _ | b | n | sv | xs | fs
    all_goals try rfl
    case dict =>
      simp [setMetaAt, stripMeta, stripMetaFields_aset_meta]
  | cons k ks ih =>
    rcases v with _ | b | n | sv | xs | fs
    all_goals try rfl
    case dict =>
      simp only [setMetaAt, stripMeta]
      congr 1
      induction fs with
      | nil => rfl
      | cons p rest ihf =>
        obtain ⟨k', v'⟩ := p
        simp only [List.map_cons]
        by_cases hkk : k' = k
        · simp only [if_pos hkk]
          simp [stripMetaFields, ihf, ih]
        · simp only [if_neg hkk]
          simp [stripMetaFields, ihf]

/-- **C5** (confirmed).  For a port value with no pre-existing
`_meta.revision` and no `_meta.hash_skip`: (1) the stamped revision is
exactly the SHA-256 hex digest of the canonical JSON serialization of the
recursively `_meta`-stripped value; hence (2) values equal after stripping
get identical revisions, and (3) changing only the `_meta` of a (nested)
value leaves the revision unchanged.  (4) Changing a non-`_meta` field
(i.e. changing the stripped value) changes the revision unless the two
canonical serializations collide under SHA-256 — collision-freeness is not
a provable property of a concrete hash, so it appears as the explicit
`HashCollision` alternative. -/
theorem c5_revision_is_canonical_hash (uuid : Nat → String) (uctr : Nat)
    (pname : String) (fs : Bindings) (h : freshMeta fs = true) :
    (stampedRevision (stampPort uuid uctr pname (.dict fs)) =
      some (.str (sha256hexOfVal (stripMeta (.dict fs))))) ∧
    (∀ fs₂ : Bindings, freshMeta fs₂ = true →
      stripMeta (.dict fs) = stripMeta (.dict fs₂) →
      stampedRevision (stampPort uuid uctr pname (.dict fs)) =
        stampedRevision (stampPort uuid uctr pname (.dict fs₂))) ∧
    (∀ (ks : List String) (m : Val) (fs' : Bindings),
      setMetaAt (.dict fs) ks m = .dict fs' →
      freshMeta fs' = true →
      stampedRevision (stampPort uuid uctr pname (.dict fs')) =
        stampedRevision (stampPort uuid uctr pname (.dict fs))) ∧
    (∀ fs₂ : Bindings, freshMeta fs₂ = true →
      stripMeta (.dict fs) ≠ stripMeta (.dict fs₂) →
      stampedRevision (stampPort uuid uctr pname (.dict fs)) ≠
        stampedRevision (stampPort uuid uctr pname (.dict fs₂)) ∨
      HashCollision) := by
  refine ⟨stampedRevision_fresh uuid uctr pname fs h, ?_, ?_, ?_⟩
  · intro fs₂ h₂ hstrip
    rw [stampedRevision_fresh uuid uctr pname fs h,
      stampedRevision_fresh uuid uctr pname fs₂ h₂, hstrip]
  · intro ks m fs' hset h'
    rw [stampedRevision_fresh uuid uctr pname fs h,
      stampedRevision_fresh uuid uctr pname fs' h']
    have := stripMeta_setMetaAt ks (.dict fs) m
    rw [hset] at this
    rw [this]
  · intro fs₂ h₂ hne
    by_cases heq : sha256hexOfVal (stripMeta (.dict fs)) =
        sha256hexOfVal (stripMeta (.dict fs₂))
    · exact Or.inr ⟨stripMeta (.dict fs), stripMeta (.dict fs₂), hne, heq⟩
    · refine Or.inl ?_
      rw [stampedRevision_fresh uuid uctr pname fs h,
        stampedRevision_fresh uuid uctr pname fs₂ h₂]
      intro hcontra
      exact heq (Val.str.inj (Option.some.inj hcontra))

/-- Witness for `c5_revision_is_canonical_hash` at `{"value": 42}` (and, for
the discrimination clause, `{"value": 43}`). -/
theorem c5_revision_is_canonical_hash_witness :
    (stampedRevision (stampPort uuidFixed 0 "out" (.dict [("value", .int 42)])) =
      some (.str (sha256hexOfVal (stripMeta (.dict [("value", .int 42)]))))) ∧
    (stampedRevision (stampPort uuidFixed 0 "out" (.dict [("value", .int 42)])) ≠
      stampedRevision (stampPort uuidFixed 0 "out" (.dict [("value", .int 43)])) ∨
      HashCollision) := by
  have h := c5_revision_is_canonical_hash uuidFixed 0 "out"
    [("value", .int 42)] (by decide)
  exact ⟨h.1, h.2.2.2 [("value", .int 43)] (by decide) (by decide)⟩

/-! ## C8 -/

/-- **C8** (counterexample).  The output `{"x": null}` DOES contain a value
at path `$.x` (the key is present, bound to JSON null), and the claim says
`equals: null` should then return the structural equality (`True`).  But
`_get_value_by_path` returns Python `None` both for a missing key and for a
stored null, so `_evaluate_condition_impl` raises the "path not found"
`ValueError` instead: the error is NOT produced exactly when the key is
missing. -/
theorem c8_counterexample :
    alookup [("x", Val.null)] "x" = some .null ∧
    getValueByPath (.dict [("x", .null)]) "$.x" = .null ∧
    evaluateConditionImpl (.dict [("x", .null)])
        [("path", .str "$.x"), ("equals", .null)] =
      .error (.valueErr ("condition path not found: path=$.x" ++
        " operator=N/A actual_value=None actual_type=missing")) := by
  refine ⟨rfl, rfl, rfl⟩

/-- **C8** (amended).  With the condition's `path` entry denoting the string
`path` (after the `or "$"` defaulting): `equals` (resp. `not_equals`, when
`equals` is absent) returns the structural (in)equality of the value found
at `path` against the reference whenever that value is not `None`/null or
the path is `$`; and the fatal condition error is produced exactly when
`path ≠ $` and the lookup yields `None` — which happens when the key is
missing, an intermediate value is not a dict, or the stored value is null
itself. -/
theorem c8_condition_equals_semantics (output : Val) (cond : Bindings)
    (path : String)
    (hpath : (match alookup cond "path" with
      | some v => if pyTruthy v then v else Val.str "$"
      | none => Val.str "$") = .str path) :
    (hasKey cond "equals" = true →
      (getValueByPath output path ≠ .null ∨ path = "$") →
      evaluateConditionImpl output cond =
        .ok (decide (getValueByPath output path =
          (alookup cond "equals").getD .null))) ∧
    (hasKey cond "equals" = false → hasKey cond "not_equals" = true →
      (getValueByPath output path ≠ .null ∨ path = "$") →
      evaluateConditionImpl output cond =
        .ok (decide (getValueByPath output path ≠
          (alookup cond "not_equals").getD .null))) ∧
    (getValueByPath output path = .null → path ≠ "$" →
      evaluateConditionImpl output cond =
        .error (.valueErr ("condition path not found: path=" ++ path ++
          " operator=N/A actual_value=None actual_type=missing"))) := by
  have hnotnull : ∀ (hv : getValueByPath output path ≠ .null ∨ path = "$"),
      ¬(getValueByPath output path = .null ∧ path ≠ "$") := by
    rintro (hv | hv) ⟨h1, h2⟩
    · exact hv h1
    · exact h2 hv
  refine ⟨?_, ?_, ?_⟩
  · intro heq hv
    simp only [evaluateConditionImpl, hpath, if_neg (hnotnull hv), heq, if_true]
  · intro heqf hneq hv
    simp only [evaluateConditionImpl, hpath, if_neg (hnotnull hv), heqf,
      Bool.false_eq_true, if_false, hneq, if_true]
  · intro hval hne
    simp only [evaluateConditionImpl, hpath]
    rw [if_pos (show getValueByPath output path = Val.null ∧ path ≠ "$" from
      ⟨hval, hne⟩)]

/-- Witness for `c8_condition_equals_semantics`: `{"x": 1}` against
`{path: "$.x", equals: 1}` evaluates to `True`. -/
theorem c8_condition_equals_semantics_witness :
    evaluateConditionImpl (.dict [("x", .int 1)])
      [("path", .str "$.x"), ("equals", .int 1)] = .ok true := by
  have h := (c8_condition_equals_semantics (.dict [("x", .int 1)])
    [("path", .str "$.x"), ("equals", .int 1)] "$.x" rfl).1 rfl
    (Or.inl (by decide))
  simpa using h

/-! ## C9 -/

theorem toList_mk (l : List Char) : (String.mk l).toList = l := rfl

theorem matchKey_sound (cs : List Char) :
    ∀ (src acc : List Char) (s1 s2 : String),
    refFullmatch.matchKey cs src acc = some (s1, s2) →
    s1 = String.mk src ∧ ∃ b, s2 = String.mk (acc ++ b) ∧ cs = b ++ ['\x7d'] ∧
      (∀ c ∈ b, c ≠ '\x7d') ∧ acc ++ b ≠ [] := by
  induction cs with
  | nil =>
    intro src acc s1 s2 h
    exact absurd h (by simp [refFullmatch.matchKey])
  | cons c cs' ih =>
    intro src acc s1 s2 h
    by_cases hc : c = '\x7d'
    · rw [refFullmatch.matchKey, if_pos hc] at h
      by_cases hstop : acc.isEmpty || !cs'.isEmpty
      · rw [if_pos hstop] at h
        exact absurd h (by simp)
      · rw [if_neg hstop] at h
        obtain ⟨h1, h2⟩ := Prod.mk.injEq .. ▸ Option.some.inj h
        have hae : acc.isEmpty = false := by
          by_contra hx
          rw [Bool.not_eq_false] at hx
          exact hstop (by simp [hx])
        have hcs : cs' = [] := by
          by_contra hx
          exact hstop (by simp [hx])
        have hane : acc ≠ [] := by
          intro hh
          rw [hh] at hae
          simp at hae
        refine ⟨h1.symm, [], by simpa using h2.symm, ?_, by simp, by simpa using hane⟩
        rw [hc, hcs]
        rfl
    · rw [refFullmatch.matchKey, if_neg hc] at h
      obtain ⟨h1, b, h2, h3, h4, h5⟩ := ih src (acc ++ [c]) s1 s2 h
      refine ⟨h1, c :: b, ?_, ?_, ?_, by simp⟩
      · rw [h2]
        simp
      · rw [h3]
        simp
      · intro x hx
        rcases List.mem_cons.mp hx with hx | hx
        · rw [hx]; exact hc
        · exact h4 x hx

theorem matchKey_complete (b : List Char) :
    ∀ (src acc : List Char), (∀ c ∈ b, c ≠ '\x7d') → acc ++ b ≠ [] →
    refFullmatch.matchKey (b ++ ['\x7d']) src acc =
      some (String.mk src, String.mk (acc ++ b)) := by
  induction b with
  | nil =>
    intro src acc _ hne
    have hae : acc.isEmpty = false := by
      simpa using fun hh => hne (by simp [hh])
    simp [refFullmatch.matchKey, hae]
  | cons c b' ih =>
    intro src acc hchars hne
    have hc : c ≠ '\x7d' := hchars c (List.mem_cons_self _ _)
    rw [List.cons_append, refFullmatch.matchKey, if_neg hc]
    have := ih src (acc ++ [c]) (fun x hx => hchars x (List.mem_cons_of_mem _ hx))
      (by simp)
    rw [this]
    simp

theorem matchSrc_sound (cs : List Char) :
    ∀ (acc : List Char) (s1 s2 : String),
    refFullmatch.matchSrc cs acc = some (s1, s2) →
    ∃ a b, cs = a ++ '.' :: (b ++ ['\x7d']) ∧ s1 = String.mk (acc ++ a) ∧
      s2 = String.mk b ∧ (∀ c ∈ a, c ≠ '.' ∧ c ≠ '\x7d') ∧ acc ++ a ≠ [] ∧
      b ≠ [] ∧ (∀ c ∈ b, c ≠ '\x7d') := by
  induction cs with
  | nil =>
    intro acc s1 s2 h
    exact absurd h (by simp [refFullmatch.matchSrc])
  | cons c cs' ih =>
    intro acc s1 s2 h
    by_cases hdot : c = '.'
    · rw [refFullmatch.matchSrc, if_pos hdot] at h
      by_cases hae : acc.isEmpty
      · rw [if_pos hae] at h
        exact absurd h (by simp)
      · rw [if_neg hae] at h
        obtain ⟨h1, b, h2, h3, h4, h5⟩ := matchKey_sound cs' acc [] s1 s2 h
        refine ⟨[], b, ?_, by simpa using h1, by simpa using h2, by simp, ?_,
          by simpa using h5, h4⟩
        · rw [hdot, h3]
          simp
        · simpa using fun hh => hae (by simp [hh])
    · by_cases hbr : c = '\x7d'
      · rw [refFullmatch.matchSrc, if_neg hdot, if_pos hbr] at h
        exact absurd h (by simp)
      · rw [refFullmatch.matchSrc, if_neg hdot, if_neg hbr] at h
        obtain ⟨a, b, h1, h2, h3, h4, h5, h6, h7⟩ := ih (acc ++ [c]) s1 s2 h
        refine ⟨c :: a, b, ?_, ?_, h3, ?_, by simp, h6, h7⟩
        · rw [h1]
          simp
        · rw [h2]
          simp
        · intro x hx
          rcases List.mem_cons.mp hx with hx | hx
          · rw [hx]; exact ⟨hdot, hbr⟩
          · exact h4 x hx

theorem matchSrc_complete (a : List Char) :
    ∀ (b acc : List Char), (∀ c ∈ a, c ≠ '.' ∧ c ≠ '\x7d') → acc ++ a ≠ [] →
    b ≠ [] → (∀ c ∈ b, c ≠ '\x7d') →
    refFullmatch.matchSrc (a ++ '.' :: (b ++ ['\x7d'])) acc =
      some (String.mk (acc ++ a), String.mk b) := by
  induction a with
  | nil =>
    intro b acc _ hne hb hbc
    have hae : acc.isEmpty = false := by
      simpa using fun hh => hne (by simp [hh])
    rw [List.nil_append, refFullmatch.matchSrc, if_pos rfl, hae]
    simpa using matchKey_complete b acc [] hbc (by simpa using hb)
  | cons c a' ih =>
    intro b acc hchars hne hb hbc
    obtain ⟨hdot, hbr⟩ := hchars c (List.mem_cons_self _ _)
    rw [List.cons_append, refFullmatch.matchSrc, if_neg hdot, if_neg hbr]
    have := ih b (acc ++ [c]) (fun x hx => hchars x (List.mem_cons_of_mem _ hx))
      (by simp) hb hbc
    rw [this]
    simp

/-- **C9** (counterexample).  `${inputs.a.b}` — whose key part contains a
dot — IS treated as a reference (`src = "inputs"`, `key = "a.b"`), not as
a literal: with empty pipeline inputs the binding resolves to UNRESOLVED
instead of passing through unchanged as the claim states. -/
theorem c9_counterexample :
    refFullmatch (pyStrip "$\x7binputs.a.b\x7d") = some ("inputs", "a.b") ∧
    resolveInputsImpl [("x", .str "$\x7binputs.a.b\x7d")] [] [] [] =
      [("x", .unresolved)] := by
  refine ⟨rfl, rfl⟩

/-- **C9** (amended).  A (trimmed) string is a reference exactly when it is
`${src.key}` where `src` is a nonempty run of characters other than `.`
and `}` — so `src` cannot contain a dot — while `key` is a nonempty run of
characters other than `}` and MAY contain dots (`[^}]+` in
`_REF_PATTERN`); a string whose key part contains a dot is therefore still
a reference.  Non-string binding values, and strings the pattern does not
fully match, pass through input resolution unchanged as literals. -/
theorem c9_reference_pattern :
    (∀ (s src key : String), refFullmatch s = some (src, key) →
      s.toList = '$' :: '\x7b' :: (src.toList ++ '.' :: (key.toList ++ ['\x7d'])) ∧
      src.toList ≠ [] ∧ (∀ c ∈ src.toList, c ≠ '.' ∧ c ≠ '\x7d') ∧
      key.toList ≠ [] ∧ (∀ c ∈ key.toList, c ≠ '\x7d')) ∧
    (∀ (src key : String), src.toList ≠ [] →
      (∀ c ∈ src.toList, c ≠ '.' ∧ c ≠ '\x7d') →
      key.toList ≠ [] → (∀ c ∈ key.toList, c ≠ '\x7d') →
      refFullmatch (String.mk ('$' :: '\x7b' ::
        (src.toList ++ '.' :: (key.toList ++ ['\x7d'])))) = some (src, key)) ∧
    (∀ (louts : List (String × Bindings)) (pin pp : Bindings) (port : String)
       (ref : Val),
      (match ref with
       | .str s => refFullmatch (pyStrip s) = none
       | _ => True) →
      resolveInputsImpl [(port, ref)] louts pin pp = [(port, .val ref)]) := by
  refine ⟨?_, ?_, ?_⟩
  · intro s src key h
    unfold refFullmatch at h
    split at h
    · rename_i rest heq
      obtain ⟨a, b, h1, h2, h3, h4, h5, h6, h7⟩ := matchSrc_sound rest [] src key h
      rw [List.nil_append] at h2 h5
      refine ⟨?_, ?_, ?_, ?_, ?_⟩
      · rw [heq, h1, h2, h3, toList_mk, toList_mk]
      · rw [h2, toList_mk]; exact h5
      · rw [h2, toList_mk]; exact h4
      · rw [h3, toList_mk]; exact h6
      · rw [h3, toList_mk]; exact h7
    · exact absurd h (by simp)
  · intro src key hsrc hsrcc hkey hkeyc
    have hms := matchSrc_complete src.toList key.toList [] hsrcc
      (by simpa using hsrc) hkey hkeyc
    simp only [List.nil_append] at hms
    unfold refFullmatch
    rw [toList_mk]
    show refFullmatch.matchSrc (src.toList ++ '.' :: (key.toList ++ ['\x7d'])) [] =
      some (src, key)
    rw [hms]
    rfl
  · intro louts pin pp port ref h
    rcases ref with _ | b | n | sv | xs | fs
    all_goals try rfl
    case str =>
      simp only at h
      simp [resolveInputsImpl, h]

/-- Witness for `c9_reference_pattern`: `${a.b.c}` matches with `src = "a"`,
`key = "b.c"`, and the integer binding `7` passes through as a literal. -/
theorem c9_reference_pattern_witness :
    refFullmatch (String.mk ('$' :: '\x7b' ::
      ("a".toList ++ '.' :: ("b.c".toList ++ ['\x7d'])))) = some ("a", "b.c") ∧
    resolveInputsImpl [("x", .int 7)] [] [] [] = [("x", .val (.int 7))] :=
  ⟨c9_reference_pattern.2.1 "a" "b.c" (by decide) (by decide) (by decide)
      (by decide),
   c9_reference_pattern.2.2 [] [] [] "x" (.int 7) trivial⟩

/-! ## C7 -/

/-- One non-final loop iteration: below the iteration limit, with the inner
pipeline ending `done` and the condition evaluating to `False`, the loop
re-enters with the executed pipeline, one more `execute` call counted, and
status `done`. -/
theorem loopIter_step {π : Type} (pif : PipeIface π) (inputs params : Bindings)
    (n : Nat) (f iter : Nat) (ls : LoopSt π)
    (hover : pyGtNumVal ((iter : Int) + 1) (Val.int (n : Int)) = .ok false)
    (hst : pif.readStatus (pif.exec ls.pipeline inputs params) = .done)
    (hcf : evaluateConditionImpl
      (match pif.getLatest (pif.exec ls.pipeline inputs params)
        (pif.finalIdOf (pif.exec ls.pipeline inputs params)) with
       | some out => Val.dict out
       | none => Val.dict []) ls.condition = .ok false) :
    loopIter pif (some (.int (n : Int))) inputs params (f + 1) iter ls =
      loopIter pif (some (.int (n : Int))) inputs params f (iter + 1)
        { ls with pipeline := pif.exec ls.pipeline inputs params,
                  execCalls := ls.execCalls + 1,
                  base := { ls.base with status := .done } } := by
  simp [loopIter, hover, hst, hcf]

/-- Reaching the iteration limit: with `max_iterations = n` and every inner
execution ending `done` with a false condition, the loop performs exactly
`n - iter` further pipeline executions and then raises `LimitSignal`. -/
theorem loopIter_limit {π : Type} (pif : PipeIface π) (inputs params : Bindings)
    (n : Nat) (cond : Bindings)
    (hdone : ∀ p : π, pif.readStatus (pif.exec p inputs params) = .done)
    (hcond : ∀ p : π, evaluateConditionImpl
      (match pif.getLatest p (pif.finalIdOf p) with
       | some out => Val.dict out
       | none => Val.dict []) cond = .ok false) :
    ∀ (fuel iter : Nat) (ls : LoopSt π), ls.condition = cond →
    iter ≤ n → n + 1 - iter ≤ fuel →
    ∃ ls', loopIter pif (some (.int (n : Int))) inputs params fuel iter ls =
        some (ls', .error (.limitSignal "max_iterations exceeded")) ∧
      ls'.execCalls = ls.execCalls + (n - iter) ∧ ls'.condition = cond := by
  intro fuel
  induction fuel with
  | zero =>
    intro iter ls _ hle hf
    omega
  | succ f ih =>
    intro iter ls hcnd hle hf
    by_cases hin : iter = n
    · subst hin
      have hover : pyGtNumVal ((iter : Int) + 1) (Val.int (iter : Int)) =
          .ok true := by
        simp only [pyGtNumVal, Except.ok.injEq, decide_eq_true_eq]
        omega
      refine ⟨ls, ?_, by simp, hcnd⟩
      simp [loopIter, hover]
    · have hlt : iter < n := Nat.lt_of_le_of_ne hle hin
      have hover : pyGtNumVal ((iter : Int) + 1) (Val.int (n : Int)) =
          .ok false := by
        simp only [pyGtNumVal, Except.ok.injEq, decide_eq_false_iff_not, not_lt]
        omega
      have hstep := loopIter_step pif inputs params n f iter ls hover
        (hdone ls.pipeline) (by rw [hcnd]; exact hcond (pif.exec ls.pipeline inputs params))
      obtain ⟨ls', h1, h2, h3⟩ := ih (iter + 1)
        { ls with pipeline := pif.exec ls.pipeline inputs params,
                  execCalls := ls.execCalls + 1,
                  base := { ls.base with status := .done } }
        hcnd (by omega) (by omega)
      refine ⟨ls', ?_, ?_, h3⟩
      · rw [hstep, h1]
      · simp only at h2
        omega

/-- `BaseNode.execute` when `run` raises `LimitSignal` (and the pre-limit
hook does not fire): status becomes `limit` and `{}` is returned. -/
theorem execKernel_run_limit {σ : Type} (getB : σ → BaseState)
    (setB : σ → BaseState → σ) (checkPre checkPost : σ → Bindings → Bool)
    (run : σ → Bindings → Bindings → Option (σ × Except PyErr RunVal))
    (uuid : Nat → String) (s : σ) (inputs params : Bindings)
    (s2 s3 : σ) (msg : String)
    (hs2 : s2 = setB (setB s { getB s with
        myNodeCalls := (getB s).myNodeCalls + 1 })
      { getB (setB s { getB s with
        myNodeCalls := (getB s).myNodeCalls + 1 }) with status := .executing })
    (hpre : checkPre s2 params = false)
    (hrun : run s2 inputs params = some (s3, .error (.limitSignal msg))) :
    execKernel (m := Option) getB setB checkPre checkPost run uuid s
        inputs params =
      some (setB s3 { getB s3 with status := .limit }, .ok []) := by
  simp only [execKernel]
  rw [← hs2, hpre]
  simp only [Bool.false_eq_true, if_false]
  rw [hrun]
  rfl

/-- **C7** (confirmed).  For a loop node with `params.limit.max_iterations
= n`, driving an inner pipeline (through the interface its `run` is
documented to use) whose every invocation ends with status `done` and
whose condition never holds: `LoopNode.run` invokes the inner pipeline's
`execute` exactly `n` times and then raises `LimitSignal` on the
`(n+1)`-th iteration attempt, so `LoopNode.execute` returns `{}` with
`read_status() = limit`. -/
theorem c7_loop_max_iterations {π : Type} (pif : PipeIface π)
    (uuid : Nat → String) (n fuel : Nat) (inputs params : Bindings)
    (ls : LoopSt π)
    (hmax : loopMaxIterations params = some (.int (n : Int)))
    (hdone : ∀ p : π, pif.readStatus (pif.exec p inputs params) = .done)
    (hcond : ∀ p : π, evaluateConditionImpl
      (match pif.getLatest p (pif.finalIdOf p) with
       | some out => Val.dict out
       | none => Val.dict []) ls.condition = .ok false)
    (hfuel : n + 1 ≤ fuel) :
    (∃ ls₂, loopRun pif fuel ls inputs params =
        some (ls₂, .error (.limitSignal "max_iterations exceeded")) ∧
      ls₂.execCalls = ls.execCalls + n) ∧
    (∃ ls₃, loopExecute pif uuid fuel ls inputs params = some (ls₃, .ok []) ∧
      ls₃.base.status = .limit ∧ ls₃.execCalls = ls.execCalls + n) := by
  have hrun : ∀ ls0 : LoopSt π, ls0.condition = ls.condition →
      ∃ ls₂, loopRun pif fuel ls0 inputs params =
        some (ls₂, .error (.limitSignal "max_iterations exceeded")) ∧
      ls₂.execCalls = ls0.execCalls + n := by
    intro ls0 hcnd
    obtain ⟨ls₂, h1, h2, _⟩ := loopIter_limit pif inputs params n ls.condition
      hdone hcond fuel 0 ls0 hcnd (Nat.zero_le n) (by omega)
    refine ⟨ls₂, ?_, by simpa using h2⟩
    rw [loopRun, hmax]
    exact h1
  constructor
  · exact hrun ls rfl
  · obtain ⟨ls₂, h1, h2⟩ := hrun
      { ls with base := { ({ls with base :=
          { ls.base with myNodeCalls := ls.base.myNodeCalls + 1 }}).base
            with status := .executing } } rfl
    refine ⟨{ ls₂ with base := { ls₂.base with status := .limit } }, ?_, rfl, ?_⟩
    · rw [loopExecute]
      exact execKernel_run_limit (fun l => l.base) (fun l b => { l with base := b })
        (fun _ _ => false) (fun _ _ => false)
        (fun l i pr => loopRun pif fuel l i pr) uuid ls inputs params
        _ ls₂ "max_iterations exceeded" rfl rfl h1
    · simpa using h2

/-- A demo inner pipeline for the loop witness: a counter that always ends
`done` with final node `f` emitting `{n: 0}`. -/
def demoPipeIface : PipeIface Nat :=
  { exec := fun p _ _ => p + 1,
    readStatus := fun _ => .done,
    finalIdOf := fun _ => "f",
    getLatest := fun _ _ => some [("n", .int 0)],
    getFinal := fun _ => [("n", .dict [("v", .int 0)])] }

/-- A condition that never holds on `{n: 0}`. -/
def demoLoopState : LoopSt Nat :=
  { condition := [("path", .str "$"), ("equals", .int 999)], pipeline := 0 }

/-- `params.limit.max_iterations = 3`. -/
def demoLoopParams : Bindings :=
  [("limit", .dict [("max_iterations", .int 3)])]

/-- Witness for `c7_loop_max_iterations`: with `max_iterations = 3`, a body
that always ends `done`, and a never-true condition, the inner pipeline is
executed exactly 3 times and the loop ends `limit` with output `{}`. -/
theorem c7_loop_max_iterations_witness :
    (∃ ls₂, loopRun demoPipeIface 4 demoLoopState [] demoLoopParams =
        some (ls₂, .error (.limitSignal "max_iterations exceeded")) ∧
      ls₂.execCalls = demoLoopState.execCalls + 3) ∧
    (∃ ls₃, loopExecute demoPipeIface uuidFixed 4 demoLoopState []
        demoLoopParams = some (ls₃, .ok []) ∧
      ls₃.base.status = .limit ∧ ls₃.execCalls = demoLoopState.execCalls + 3) :=
  c7_loop_max_iterations demoPipeIface uuidFixed 3 4 [] demoLoopParams
    demoLoopState rfl (fun _ => rfl) (fun _ => rfl) (by omega)

end NodeFlow
